import Mathlib

/-!
A shallow embedding of the reactive entity cache implemented in
`src/entityStore.ts` (class `EntityStore`), together with proofs about the
behaviour its specification describes.

Modelling conventions:

* JavaScript keys (`type Id = string | number`, `src/type.ts`) are the
  inductive `Id` below; `getCacheKey` is the template-string normalization
  `` `${id}` ``.
* Entity values of the store's generic element type `T` are opaque; JS `===`
  on them is reference identity, so we take `T` to be the set of references
  with decidable (reference) equality.  JS truthiness of a value (used by
  `isDefined = (value) => !!value` in `src/support.ts`) is an extra function
  `truthy : T → Bool` carried in the embedding context.
* A `BehaviorSubject<T | undefined>` is a `Cell`: its current value
  (`none` = `undefined`), the log of values passed to `next` (used to state
  what subscribers receive), and its count of attached observers.  Subjects
  are reference objects, so the store keeps a heap `cells : List (Nat × Cell)`
  indexed by allocation order, and the `cache` map stores cell references.
* JS `Map` get/set/delete use key equality (SameValueZero): the string key
  `"1"` and the number key `1` are distinct map keys.
* `setTimeout`/`clearTimeout` are modelled by a heap of one-shot timers with
  absolute deadlines; the event loop fires due timers in deadline order
  (ties in creation order), which `runUntil` implements with explicit fuel.
* `updateStream.next(...)` posts are recorded as the list of times at which
  they happen (`signals`); the payload of the subject passed to `next` is
  never read by `getAll`, so it is not recorded.
-/

set_option linter.unusedSectionVars false

namespace EntityStoreModel

/-- `type Id = string | number` from `src/type.ts`.  JS numbers used as keys
in the claims are integers, modelled by `Int`. -/
inductive Id where
  | str : String → Id
  | num : Int → Id
deriving DecidableEq, Repr

/-- `getCacheKey(id) = \x7b return `${id}` \x7d`: template-string
normalization of a key to text (`src/entityStore.ts`). -/
def getCacheKey : Id → String
  | Id.str s => s
  | Id.num n => toString n

/-- A `BehaviorSubject<T | undefined>`: current value (`none` models
`undefined`), the log of all values passed to `next`, and the number of
attached observers (`subject.observers.length`). -/
structure Cell (T : Type) where
  value : Option T
  history : List (Option T)
  observers : Nat
deriving Repr, DecidableEq

/-- The freshly constructed `new BehaviorSubject<T | undefined>(undefined)`. -/
def newCell (T : Type) : Cell T := { value := none, history := [], observers := 0 }

/-- JS `Map.get`. -/
def mapGet {κ α : Type} [DecidableEq κ] (m : List (κ × α)) (k : κ) : Option α :=
  (m.find? (fun p => decide (p.1 = k))).map Prod.snd

/-- JS `Map.set`: replace the binding if the key is present, else append. -/
def mapSet {κ α : Type} [DecidableEq κ] (m : List (κ × α)) (k : κ) (a : α) : List (κ × α) :=
  match m with
  | [] => [(k, a)]
  | p :: rest => if p.1 = k then (k, a) :: rest else p :: mapSet rest k a

/-- JS `Map.delete`. -/
def mapDelete {κ α : Type} [DecidableEq κ] (m : List (κ × α)) (k : κ) : List (κ × α) :=
  m.filter (fun p => decide (p.1 ≠ k))

/-- The mutable state of one `EntityStore` instance:
`cache`, `pendingDeletions` and the `updateStream` post log, plus the heaps
backing subject references and armed timers, allocation counters, and the
event-loop clock. -/
structure EntityStore (T : Type) where
  cells : List (Nat × Cell T)
  cache : List (Id × Nat)
  pendingDeletions : List (Id × Nat)
  timers : List (Nat × Id × Nat)
  nextCell : Nat
  nextTimer : Nat
  now : Nat
  signals : List Nat
deriving Repr

/-- A newly constructed store. -/
def emptyStore (T : Type) : EntityStore T :=
  { cells := [], cache := [], pendingDeletions := [], timers := [],
    nextCell := 0, nextTimer := 0, now := 0, signals := [] }

/-- Embedding context: the store configuration's `idAccessor` together with
JS truthiness of the element type's runtime values. -/
structure EmbCtx (T : Type) where
  idAccessor : T → Id
  truthy : T → Bool

variable {T : Type}

/-- Current value of the subject referenced by `cid` (a missing reference
reads as `undefined`; the code never dereferences a missing subject). -/
def cellValue (s : EntityStore T) (cid : Nat) : Option T :=
  (mapGet s.cells cid).bind Cell.value

/-- Emission log of the subject referenced by `cid`. -/
def cellHistory (s : EntityStore T) (cid : Nat) : List (Option T) :=
  ((mapGet s.cells cid).map Cell.history).getD []

/-- Update the entry stored under key `k` in place. -/
def updAt {β : Type} (m : List (Nat × β)) (k : Nat) (f : β → β) : List (Nat × β) :=
  m.map (fun p => if p.1 = k then (p.1, f p.2) else p)

/-- `subject.next(v)`: update the current value and append to the log. -/
def cellNext (s : EntityStore T) (cid : Nat) (v : Option T) : EntityStore T :=
  { s with cells :=
      updAt s.cells cid (fun c => { c with value := v, history := c.history ++ [v] }) }

/-- Overwrite the observer count of one subject (used only to state that the
eviction path is insensitive to it). -/
def setObservers (s : EntityStore T) (cid : Nat) (n : Nat) : EntityStore T :=
  { s with cells := updAt s.cells cid (fun c => { c with observers := n }) }

/-- `updateStream.next(...)`: record a change signal at the current time. -/
def postSignal (s : EntityStore T) : EntityStore T :=
  { s with signals := s.signals ++ [s.now] }

/-- `getEntitySubjectRef(id)` from `src/entityStore.ts`: look the normalized
key up in `cache`, creating and inserting a fresh subject if absent; returns
the subject reference and the updated store. -/
def getEntitySubjectRef (id : Id) (s : EntityStore T) : Nat × EntityStore T :=
  let key : Id := Id.str (getCacheKey id)
  match mapGet s.cache key with
  | some cid => (cid, s)
  | none =>
      (s.nextCell,
       { s with cells := s.cells ++ [(s.nextCell, newCell T)],
                cache := mapSet s.cache key s.nextCell,
                nextCell := s.nextCell + 1 })

/-- `clearTimeout(h)` for an optional handle (`clearTimeout(undefined)` is a
no-op, which is what `clearTimeout(this.pendingDeletions.get(id))` does on a
miss). -/
def clearTO (h : Option Nat) (s : EntityStore T) : EntityStore T :=
  match h with
  | none => s
  | some h => { s with timers := s.timers.filter (fun t => decide (t.1 ≠ h)) }

/-- `setPendingDeletion(id, cacheTime)`: clear any previous timeout recorded
for the raw `id`, then arm `setTimeout(() => this.deleteSync(id), cacheTime)`
and record its handle under the raw `id`. -/
def setPendingDeletion (id : Id) (cacheTime : Nat) (s : EntityStore T) : EntityStore T :=
  let s := clearTO (mapGet s.pendingDeletions id) s
  { s with timers := s.timers ++ [(s.nextTimer, id, s.now + cacheTime)],
           pendingDeletions := mapSet s.pendingDeletions id s.nextTimer,
           nextTimer := s.nextTimer + 1 }

/-- `cancelPendingDeletion(id)`: clear the timeout recorded for the raw `id`
and drop its map entry. -/
def cancelPendingDeletion (id : Id) (s : EntityStore T) : EntityStore T :=
  let s := clearTO (mapGet s.pendingDeletions id) s
  { s with pendingDeletions := mapDelete s.pendingDeletions id }

variable [DecidableEq T]

/-- `setSync(value, cacheTime)`: derive the key, look up / create the
subject, and only when the value differs by reference from the current one
(`prevValue === undefined || prevValue !== value`) reset the eviction timer,
push the value, and post a change signal.  The returned `this.get(id)` stream
does not mutate the store, so only the state effect is modelled here. -/
def setSync (ctx : EmbCtx T) (value : T) (cacheTime : Nat) (s : EntityStore T) : EntityStore T :=
  let id := ctx.idAccessor value
  let r := getEntitySubjectRef id s
  let cid := r.1
  let s := r.2
  let prevValue := cellValue s cid
  let isNew : Bool := prevValue.isNone || decide (prevValue ≠ some value)
  if isNew then
    let s := setPendingDeletion id cacheTime s
    let s := cellNext s cid (some value)
    postSignal s
  else s

/-- `this.cache.delete(id)`: remove the RAW id from the cache map. -/
def cacheDelete (s : EntityStore T) (raw : Id) : EntityStore T :=
  { s with cache := mapDelete s.cache raw }

/-- `deleteSync(value)`: resolve the key (`isYbKey` distinguishes a raw key
from an entity; the embedding keeps the two input shapes as a tagged sum),
push `undefined` into the key's subject, then `this.cache.delete(id)` with
the RAW id (not the normalized `getCacheKey(id)` the map was populated
with), cancel the pending deletion and post a change signal. -/
def deleteSync (ctx : EmbCtx T) (input : T ⊕ Id) (s : EntityStore T) : EntityStore T :=
  let id := match input with
    | Sum.inl v => ctx.idAccessor v
    | Sum.inr k => k
  let r := getEntitySubjectRef id s
  let s := cellNext r.2 r.1 none
  let s := cacheDelete s id
  let s := cancelPendingDeletion id s
  postSignal s

/-- `clear()`: tear every subject down and empty the maps, clearing every
pending timeout, then post one change signal.  Subject completion /
unsubscription is not observed by any property below and is not modelled
beyond the removal itself. -/
def clearStore (s : EntityStore T) : EntityStore T :=
  postSignal { s with cache := [], pendingDeletions := [], timers := [] }

/-! ### The event loop: firing armed `setTimeout` callbacks

Every timer armed by `setPendingDeletion` holds the callback
`() => this.deleteSync(id)`.  The event loop fires due timers in deadline
order (ties in creation order, matching standard timer semantics); a fired
timer is discarded before its callback runs. -/

/-- The due timer (deadline at most `t`) the event loop fires next: least
deadline, earliest armed among equals. -/
def dueMin (t : Nat) (timers : List (Nat × Id × Nat)) : Option (Nat × Id × Nat) :=
  (timers.filter (fun x => decide (x.2.2 ≤ t))).argmin (fun x => x.2.2)

/-- Discard the timer with handle `h` and jump the clock to deadline `d`. -/
def dropTimer (s : EntityStore T) (h : Nat) (d : Nat) : EntityStore T :=
  { s with timers := s.timers.filter (fun y => decide (y.1 ≠ h)), now := d }

/-- Discard the timer with handle `h`, advance the clock to its deadline and
run its callback `deleteSync(id)`. -/
def fireTimer (ctx : EmbCtx T) (h : Nat) (s : EntityStore T) : EntityStore T :=
  match s.timers.find? (fun x => decide (x.1 = h)) with
  | none => s
  | some x => deleteSync ctx (Sum.inr x.2.1) (dropTimer s h x.2.2)

/-- Run the event loop up to (and including) time `t`: fire due timers in
order, then set the clock to `t`.  Timer callbacks never arm new timers
(they only delete), so the number of armed timers is sufficient fuel. -/
def runUntil (ctx : EmbCtx T) : Nat → Nat → EntityStore T → EntityStore T
  | 0, t, s => { s with now := t }
  | fuel + 1, t, s =>
      match dueMin t s.timers with
      | none => { s with now := t }
      | some x => runUntil ctx fuel t (fireTimer ctx x.1 s)

/-- Advance the event loop to absolute time `t`. -/
def runUntilT (ctx : EmbCtx T) (t : Nat) (s : EntityStore T) : EntityStore T :=
  runUntil ctx s.timers.length t s

/-! ### Store operations as events

The public synchronous operations, reified so that interleavings of store
operations (including passage of time) can be quantified over. -/

/-- One synchronous store operation (or a lapse of time). -/
inductive Op (T : Type) where
  | setOp : T → Nat → Op T
  | delEnt : T → Op T
  | delKey : Id → Op T
  | getOp : Id → Op T
  | clearOp : Op T
  | advanceOp : Nat → Op T

/-- Apply one operation.  `get(id)`'s only state effect is the
lookup-or-create of the key's subject. -/
def applyOp (ctx : EmbCtx T) (s : EntityStore T) : Op T → EntityStore T
  | Op.setOp v ct => setSync ctx v ct s
  | Op.delEnt v => deleteSync ctx (Sum.inl v) s
  | Op.delKey k => deleteSync ctx (Sum.inr k) s
  | Op.getOp k => (getEntitySubjectRef k s).2
  | Op.clearOp => clearStore s
  | Op.advanceOp d => runUntilT ctx (s.now + d) s

/-- Run a sequence of operations. -/
def runOps (ctx : EmbCtx T) (ops : List (Op T)) (s : EntityStore T) : EntityStore T :=
  ops.foldl (applyOp ctx) s

/-! ### Subscription semantics of `get`

`get(id)` returns `getEntitySubjectRef(id).asObservable().pipe(notUndefined)`
where `notUndefined = filter(isDefined)` and
`isDefined = (value) => !!value` (`src/support.ts`): the filter tests JS
truthiness, so `undefined` and every falsy value are dropped.  A
`BehaviorSubject` delivers its current value to a new subscriber and then
every later `next`. -/

/-- What the `notUndefined` filter lets through. -/
def passFilter (ctx : EmbCtx T) (o : Option T) : Option T :=
  match o with
  | some v => if ctx.truthy v then some v else none
  | none => none

/-- Values a subscriber of `get` attached to subject `cid` receives
immediately on subscribing in state `s` (the `BehaviorSubject` replay of the
current value, run through `notUndefined`). -/
def replayEmission (ctx : EmbCtx T) (s : EntityStore T) (cid : Nat) : List T :=
  (passFilter ctx (cellValue s cid)).toList

/-- Values pushed into subject `cid` between states `s1` and `s2` (the log
entries appended in between). -/
def newEmissions (s1 s2 : EntityStore T) (cid : Nat) : List (Option T) :=
  (cellHistory s2 cid).drop (cellHistory s1 cid).length

/-- Values an already-attached subscriber of `get` on subject `cid` receives
while the state evolves from `s1` to `s2`. -/
def getNewEmissions (ctx : EmbCtx T) (s1 s2 : EntityStore T) (cid : Nat) : List T :=
  (newEmissions s1 s2 cid).filterMap (passFilter ctx)

/-- Current value stored under a key: the normalized-key lookup `get`
performs, reading `undefined` when the key has no subject in the map. -/
def valueAtKey (s : EntityStore T) (k : Id) : Option T :=
  (mapGet s.cache (Id.str (getCacheKey k))).bind (cellValue s)

/-! ### `getAll`

`getAll()` is
`updateStream.pipe(debounceTime(HUMAN_REACTION_TIME), startWith(undefined),
map(<present keys>), switchMap(<combineLatest of gets, or of([])>))`
(`src/entityStore.ts`), with `HUMAN_REACTION_TIME = 200` from
`src/constant.ts`.  The embedding below replays a timed scenario: the
subscription starts at the state `s0`, the listed operations run at their
times (due eviction timers fire first), each change signal schedules a
trailing-debounced recomputation, and every recomputation switches to a
fresh `combineLatest` over the keys present at that instant. -/

/-- `HUMAN_REACTION_TIME = 200; // ms`. -/
def HUMAN_REACTION_TIME : Nat := 200

/-- The `map` step of `getAll`: keys of the cache whose subject currently
holds a defined value (the presence test is `getValue() !== undefined`, not
the truthiness test `get` filters with). -/
def snapshotKeys (s : EntityStore T) : List Id :=
  (s.cache.map Prod.fst).filter (fun k => (valueAtKey s k).isSome)

/-- The entities `getAll`'s snapshot would list, in key order. -/
def snapshotValues (s : EntityStore T) : List T :=
  (snapshotKeys s).filterMap (valueAtKey s)

/-- Emission times of `debounceTime(w)` for the given input times, trailing
semantics: a value at time `u` schedules an emission at `u + w`, cancelled
when the next value arrives strictly earlier. -/
def debounceTimes (w : Nat) : List Nat → List Nat
  | [] => []
  | [u] => [u + w]
  | u :: u' :: rest =>
      if u' < u + w then debounceTimes w (u' :: rest)
      else (u + w) :: debounceTimes w (u' :: rest)

/-- A live `combineLatest(keys.map(key => this.get(key)))`: the subjects
captured at the switch, and per source the latest value it has emitted
through `get`'s filter (`none` while a source has not emitted yet). -/
structure Seg (T : Type) where
  cells : List (Id × Nat)
  regs : List (Option T)

/-- Enter a new inner observable of the `switchMap`: `of([])` when no key is
present (one empty snapshot, then inert), otherwise a `combineLatest` over
the present keys, which emits its first combined array synchronously exactly
when every `get` source emits on subscription. -/
def startSegment (ctx : EmbCtx T) (s : EntityStore T) : Option (Seg T) × List (List T) :=
  let ks := snapshotKeys s
  if ks.isEmpty then (none, [[]])
  else
    let cells := ks.filterMap (fun k =>
      (mapGet s.cache (Id.str (getCacheKey k))).map (fun c => (k, c)))
    let regs := cells.map (fun c => passFilter ctx (cellValue s c.2))
    if regs.all Option.isSome then (some ⟨cells, regs⟩, [regs.filterMap id])
    else (some ⟨cells, regs⟩, [])

/-- Feed source `i` of a `combineLatest` the values `vs` one by one: each
updates the source's latest-value register and, once every source has
emitted, produces a combined array. -/
def regsUpdates (regs : List (Option T)) (i : Nat) (vs : List T) :
    List (Option T) × List (List T) :=
  vs.foldl
    (fun acc v =>
      let regs' := acc.1.set i (some v)
      (regs', acc.2 ++ if regs'.all Option.isSome then [regs'.filterMap id] else []))
    (regs, [])

/-- React a live `combineLatest` to one store transition `sPre → sPost`:
every captured subject's newly pushed values pass through `get`'s filter and
feed the corresponding source. -/
def segStep (ctx : EmbCtx T) (sPre sPost : EntityStore T) (seg : Seg T) :
    Seg T × List (List T) :=
  let r := seg.cells.enum.foldl
    (fun (acc : List (Option T) × List (List T)) p =>
      let u := regsUpdates acc.1 p.1 (getNewEmissions ctx sPre sPost p.2.2)
      (u.1, acc.2 ++ u.2))
    (seg.regs, [])
  (⟨seg.cells, r.1⟩, r.2)

/-- A timeline event: a debounced recomputation firing, or a store
operation. -/
inductive GEvent (T : Type) where
  | fire : Nat → GEvent T
  | op : Nat → Op T → GEvent T

/-- Merge timed operations with debounce firings into one timeline (an
operation goes first on a tie); the fuel is the total number of events. -/
def mergeEventsFuel : Nat → List (Nat × Op T) → List Nat → List (GEvent T)
  | 0, _, _ => []
  | _ + 1, [], fs => fs.map GEvent.fire
  | _ + 1, os, [] => os.map (fun o => GEvent.op o.1 o.2)
  | fuel + 1, o :: os, f :: fs =>
      if o.1 ≤ f then GEvent.op o.1 o.2 :: mergeEventsFuel fuel os (f :: fs)
      else GEvent.fire f :: mergeEventsFuel fuel (o :: os) fs

/-- Merge timed operations with debounce firings into one timeline. -/
def mergeEvents (os : List (Nat × Op T)) (fs : List Nat) : List (GEvent T) :=
  mergeEventsFuel (os.length + fs.length) os fs

/-- Replay the timeline: before each event the event loop catches up (due
eviction timers push only `undefined`, which `get`'s filter drops, so they
feed no `combineLatest` source); a firing recomputes and switches segments,
an operation feeds the live segment. -/
def walkEvents (ctx : EmbCtx T) :
    List (GEvent T) → EntityStore T → Option (Seg T) → List (List T)
  | [], _, _ => []
  | GEvent.fire t :: rest, s, _ =>
      let s1 := runUntilT ctx t s
      let r := startSegment ctx s1
      r.2 ++ walkEvents ctx rest s1 r.1
  | GEvent.op t o :: rest, s, seg =>
      let s1 := runUntilT ctx t s
      let s2 := applyOp ctx s1 o
      match seg with
      | none => walkEvents ctx rest s2 none
      | some sg =>
          let r := segStep ctx s1 s2 sg
          r.2 ++ walkEvents ctx rest s2 (some r.1)

/-- Run one timed operation: catch the event loop up to its time, then apply
it. -/
def applyTimedOp (ctx : EmbCtx T) (s : EntityStore T) (o : Nat × Op T) : EntityStore T :=
  applyOp ctx (runUntilT ctx o.1 s) o.2

/-- Run a timed operation list. -/
def runTimedOps (ctx : EmbCtx T) (ops : List (Nat × Op T)) (s : EntityStore T) :
    EntityStore T :=
  ops.foldl (applyTimedOp ctx) s

/-- Everything a subscriber of `getAll()` receives for a timed scenario:
subscribe at state `s0`, run `ops` (times ascending); the first snapshot is
computed immediately at subscription, and every change signal posted after
the subscription feeds the trailing debounce. -/
def getAllRun (ctx : EmbCtx T) (w : Nat) (s0 : EntityStore T)
    (ops : List (Nat × Op T)) : List (List T) :=
  let sigAfter := (runTimedOps ctx ops s0).signals.drop s0.signals.length
  let events := mergeEvents ops (debounceTimes w sigAfter)
  let r := startSegment ctx s0
  r.2 ++ walkEvents ctx events s0 r.1

/-! ### `getOrSet`

```
public getOrSet(id, getInput, cacheTime = DEFAULT_CACHE_TIME) \x7b
    const entitySubject = this.getEntitySubjectRef(id);
    return (entitySubject.getValue() !== undefined
        ? this.get(id)
        : this.set(getInput(), cacheTime)
    ).pipe(
        first(),
        switchMap(() => entitySubject),
        switchMap((entity) => entity !== undefined
            ? of(entity)
            : this.getOrSet(id, getInput, cacheTime).pipe(first())),
        distinctUntilChanged(),
    );
\x7d
```

The embedding gives the first-result semantics of this pipeline under
cooperative interleaving.  The producer `getInput` is modelled as resolving,
on its `k`-th invocation across the retry recursion, to the value `prod k`,
after the interfering operations `sched k` (writes/deletes by other logical
threads of execution) have run during the suspension; a synchronous producer
is the case `sched k = []`.  Within one resolution everything is
synchronous: the written value flows through `set`'s returned `get` stream
(truthiness-filtered), `first()` takes it, and the `switchMap` re-reads the
subject captured at step 1 with no interleaving gap.  A pipeline whose
source never emits (a falsy value never passes `get`'s filter) has no first
result, reported as `none`.  The fuel bounds the unbounded retry recursion;
exhausted fuel is likewise reported as `none`. -/

/-- First result and state effect of `getOrSet(id, getInput, cacheTime)`,
translated from the pipeline above. -/
def getOrSetFirst (ctx : EmbCtx T) :
    Nat → Id → (Nat → T) → (Nat → List (Op T)) → Nat → Nat → EntityStore T →
    Option T × EntityStore T
  | 0, _, _, _, _, _, s => (none, s)
  | fuel + 1, id, prod, sched, cacheTime, k, s =>
      let r := getEntitySubjectRef id s
      let entitySubject := r.1
      let s1 := r.2
      match cellValue s1 entitySubject with
      | some w =>
          if ctx.truthy w then (some w, s1) else (none, s1)
      | none =>
          let v := prod k
          let s2 := runOps ctx (sched k) s1
          let s3 := setSync ctx v cacheTime s2
          if ctx.truthy v then
            match cellValue s3 entitySubject with
            | some w => (some w, s3)
            | none => getOrSetFirst ctx fuel id prod sched cacheTime (k + 1) s3
          else (none, s3)

/-- Whether a key is currently present (its Cell's current value is not
absent). -/
def keyPresent (s : EntityStore T) (id : Id) : Bool :=
  (valueAtKey s id).isSome

/-- The first emission of the read stream for a key: the current value when
it passes the read filter, nothing otherwise. -/
def readFirst (ctx : EmbCtx T) (s : EntityStore T) (id : Id) : Option T :=
  passFilter ctx (valueAtKey s id)

/-- The first emission of the stream `set` returns: `set` hands back the
read stream for the written value's own key (`return this.get(id)` with
`id = this.config.idAccessor(value)`). -/
def setReturnFirst (ctx : EmbCtx T) (s : EntityStore T) (v : T) : Option T :=
  readFirst ctx s (ctx.idAccessor v)

/-- The race-safe algorithm exactly as the specification words it: capture
the Cell; start from the existing read stream if the key is currently
present, otherwise from `set(producer(), cacheTime)`; take only the first
emission of that starting stream; re-derive the value directly from the
Cell; if the Cell is present emit that value, and if it is now absent
(concurrently deleted) recursively re-invoke the whole procedure for the
same key/producer/cacheTime and take its first result. -/
def getOrSetSpecAlg (ctx : EmbCtx T) :
    Nat → Id → (Nat → T) → (Nat → List (Op T)) → Nat → Nat → EntityStore T →
    Option T × EntityStore T
  | 0, _, _, _, _, _, s => (none, s)
  | fuel + 1, id, prod, sched, cacheTime, k, s =>
      let captured := getEntitySubjectRef id s
      if keyPresent captured.2 id then
        match readFirst ctx captured.2 id with
        | none => (none, captured.2)
        | some _ =>
            match cellValue captured.2 captured.1 with
            | some w => (some w, captured.2)
            | none => getOrSetSpecAlg ctx fuel id prod sched cacheTime (k + 1) captured.2
      else
        let afterSet := setSync ctx (prod k) cacheTime (runOps ctx (sched k) captured.2)
        match setReturnFirst ctx afterSet (prod k) with
        | none => (none, afterSet)
        | some _ =>
            match cellValue afterSet captured.1 with
            | some w => (some w, afterSet)
            | none => getOrSetSpecAlg ctx fuel id prod sched cacheTime (k + 1) afterSet

/-! ### Structural invariants -/

/-- Whether a key value is already in text form. -/
def isTextKey : Id → Bool
  | Id.str _ => true
  | Id.num _ => false

/-- Every key of the cache map is in normalized (text) form: the map is only
ever populated through `getEntitySubjectRef`. -/
def normKeys (s : EntityStore T) : Prop :=
  ∀ p ∈ s.cache, isTextKey p.1 = true

/-- Cache map keys are unique (JS `Map` semantics). -/
def cacheKeysNodup (s : EntityStore T) : Prop :=
  (s.cache.map Prod.fst).Nodup

/-- Every handle recorded in `pendingDeletions` refers to a timer targeting
that same raw id. -/
def pdConsistent (s : EntityStore T) : Prop :=
  ∀ p ∈ s.pendingDeletions, ∀ x ∈ s.timers, x.1 = p.2 → x.2.1 = p.1

/-- Armed timer handles are unique. -/
def timerHandlesNodup (s : EntityStore T) : Prop :=
  (s.timers.map Prod.fst).Nodup

/-- At most one Cell per normalized key: two cache entries whose keys
normalize to the same text are the same entry. -/
def onePerNormKey (s : EntityStore T) : Prop :=
  ∀ p ∈ s.cache, ∀ q ∈ s.cache, getCacheKey p.1 = getCacheKey q.1 → p = q

/-! ### Lemmas about the map primitives -/

section MapLemmas

variable {κ α : Type} [DecidableEq κ]

theorem mapGet_nil (k : κ) : mapGet ([] : List (κ × α)) k = none := rfl

theorem mapGet_cons (p : κ × α) (m : List (κ × α)) (k : κ) :
    mapGet (p :: m) k = if p.1 = k then some p.2 else mapGet m k := by
  by_cases h : p.1 = k <;> simp [mapGet, List.find?, h]

theorem mapSet_cons (p : κ × α) (m : List (κ × α)) (k : κ) (a : α) :
    mapSet (p :: m) k a = if p.1 = k then (k, a) :: m else p :: mapSet m k a := rfl

theorem mapDelete_cons (p : κ × α) (m : List (κ × α)) (k : κ) :
    mapDelete (p :: m) k = if p.1 = k then mapDelete m k else p :: mapDelete m k := by
  by_cases h : p.1 = k <;> simp [mapDelete, List.filter, h]

theorem mapGet_mapSet_self (m : List (κ × α)) (k : κ) (a : α) :
    mapGet (mapSet m k a) k = some a := by
  induction m with
  | nil => simp [mapSet, mapGet_cons]
  | cons p rest ih =>
      rw [mapSet_cons]
      by_cases h : p.1 = k
      · simp [h, mapGet_cons]
      · rw [if_neg h, mapGet_cons, if_neg h]
        exact ih

theorem mapGet_mapSet_ne (m : List (κ × α)) (k k' : κ) (a : α) (h : k' ≠ k) :
    mapGet (mapSet m k a) k' = mapGet m k' := by
  induction m with
  | nil =>
      have h1 : ¬ (k : κ) = k' := fun hc => h hc.symm
      simp [mapSet, mapGet_cons, mapGet_nil, h1]
  | cons p rest ih =>
      rw [mapSet_cons]
      by_cases hp : p.1 = k
      · rw [if_pos hp, mapGet_cons, mapGet_cons]
        have h1 : ¬ (k : κ) = k' := fun hc => h hc.symm
        have h2 : ¬ p.1 = k' := fun hc => h1 (hp ▸ hc)
        rw [if_neg h1, if_neg h2]
      · rw [if_neg hp, mapGet_cons, mapGet_cons]
        by_cases hp' : p.1 = k'
        · rw [if_pos hp', if_pos hp']
        · rw [if_neg hp', if_neg hp']
          exact ih

theorem mapGet_mapDelete_self (m : List (κ × α)) (k : κ) :
    mapGet (mapDelete m k) k = none := by
  induction m with
  | nil => rfl
  | cons p rest ih =>
      rw [mapDelete_cons]
      by_cases hp : p.1 = k
      · rw [if_pos hp]; exact ih
      · rw [if_neg hp, mapGet_cons, if_neg hp]; exact ih

theorem mapGet_mapDelete_ne (m : List (κ × α)) (k k' : κ) (h : k' ≠ k) :
    mapGet (mapDelete m k) k' = mapGet m k' := by
  induction m with
  | nil => rfl
  | cons p rest ih =>
      rw [mapDelete_cons]
      by_cases hp : p.1 = k
      · have h2 : ¬ p.1 = k' := fun hc => h ((hp ▸ hc : (k : κ) = k')).symm
        rw [if_pos hp, mapGet_cons, if_neg h2]
        exact ih
      · rw [if_neg hp, mapGet_cons, mapGet_cons]
        by_cases hp' : p.1 = k'
        · rw [if_pos hp', if_pos hp']
        · rw [if_neg hp', if_neg hp']
          exact ih

theorem mapGet_mem (m : List (κ × α)) (k : κ) (a : α) (h : mapGet m k = some a) :
    (k, a) ∈ m := by
  induction m with
  | nil => simp [mapGet] at h
  | cons p rest ih =>
      rw [mapGet_cons] at h
      by_cases hp : p.1 = k
      · rw [if_pos hp] at h
        have : p = (k, a) := by
          obtain ⟨b, c⟩ := p
          simp only [Option.some.injEq] at h
          simp only at hp
          rw [hp, h]
        rw [← this]
        exact List.mem_cons_self p rest
      · rw [if_neg hp] at h
        exact List.mem_cons_of_mem p (ih h)

theorem mapGet_eq_none (m : List (κ × α)) (k : κ) (h : ∀ p ∈ m, p.1 ≠ k) :
    mapGet m k = none := by
  induction m with
  | nil => rfl
  | cons p rest ih =>
      rw [mapGet_cons, if_neg (h p (List.mem_cons_self p rest))]
      exact ih (fun q hq => h q (List.mem_cons_of_mem p hq))

theorem mapGet_append_fresh (m : List (κ × α)) (k : κ) (a : α)
    (h : ∀ p ∈ m, p.1 ≠ k) : mapGet (m ++ [(k, a)]) k = some a := by
  induction m with
  | nil => simp [mapGet_cons]
  | cons p rest ih =>
      rw [List.cons_append, mapGet_cons, if_neg (h p (List.mem_cons_self p rest))]
      exact ih (fun q hq => h q (List.mem_cons_of_mem p hq))

theorem mem_mapSet (m : List (κ × α)) (k : κ) (a : α) (p : κ × α)
    (h : p ∈ mapSet m k a) : p = (k, a) ∨ p ∈ m := by
  induction m with
  | nil => simpa [mapSet] using h
  | cons q rest ih =>
      rw [mapSet_cons] at h
      by_cases hq : q.1 = k
      · rw [if_pos hq] at h
        rcases List.mem_cons.mp h with h1 | h1
        · left; exact h1
        · right; exact List.mem_cons_of_mem q h1
      · rw [if_neg hq] at h
        rcases List.mem_cons.mp h with h1 | h1
        · right; rw [h1]; exact List.mem_cons_self q rest
        · rcases ih h1 with h2 | h2
          · left; exact h2
          · right; exact List.mem_cons_of_mem q h2

theorem mapSet_keys_sub (m : List (κ × α)) (k : κ) (a : α) (x : κ)
    (h : x ∈ (mapSet m k a).map Prod.fst) : x ∈ m.map Prod.fst ∨ x = k := by
  rcases List.mem_map.mp h with ⟨p, hp, hpx⟩
  rcases mem_mapSet m k a p hp with h1 | h1
  · right; rw [h1] at hpx; exact hpx.symm
  · left; exact List.mem_map.mpr ⟨p, h1, hpx⟩

theorem mapSet_keys_nodup (m : List (κ × α)) (k : κ) (a : α)
    (h : (m.map Prod.fst).Nodup) : ((mapSet m k a).map Prod.fst).Nodup := by
  induction m with
  | nil => simp [mapSet]
  | cons p rest ih =>
      simp only [List.map_cons, List.nodup_cons] at h
      by_cases hp : p.1 = k
      · simp only [mapSet, hp, if_true, List.map_cons, List.nodup_cons]
        exact ⟨hp ▸ h.1, h.2⟩
      · simp only [mapSet, hp, if_false, List.map_cons, List.nodup_cons]
        refine ⟨fun hc => ?_, ih h.2⟩
        rcases mapSet_keys_sub rest k a p.1 hc with h1 | h1
        · exact h.1 h1
        · exact hp h1

theorem mapDelete_keys_nodup (m : List (κ × α)) (k : κ)
    (h : (m.map Prod.fst).Nodup) : ((mapDelete m k).map Prod.fst).Nodup :=
  ((List.filter_sublist m).map Prod.fst).nodup h

omit [DecidableEq κ] in
theorem nodup_keys_mem_eq (m : List (κ × α)) (h : (m.map Prod.fst).Nodup)
    (p q : κ × α) (hp : p ∈ m) (hq : q ∈ m) (hk : p.1 = q.1) : p = q := by
  induction m with
  | nil => simp at hp
  | cons r rest ih =>
      simp only [List.map_cons, List.nodup_cons] at h
      rcases List.mem_cons.mp hp with hp1 | hp1 <;> rcases List.mem_cons.mp hq with hq1 | hq1
      · rw [hp1, hq1]
      · exact absurd (List.mem_map.mpr ⟨q, hq1, (hp1 ▸ hk).symm⟩) h.1
      · exact absurd (List.mem_map.mpr ⟨p, hp1, hq1 ▸ hk⟩) h.1
      · exact ih h.2 hp1 hq1

end MapLemmas

/-! ### Lemmas about cells and `getEntitySubjectRef` -/

theorem mapGet_updAt {β : Type} (m : List (Nat × β)) (cid k : Nat) (f : β → β) :
    mapGet (updAt m cid f) k
      = if k = cid then (mapGet m k).map f else mapGet m k := by
  unfold updAt
  induction m with
  | nil => by_cases h : k = cid <;> simp [mapGet_nil, h]
  | cons p rest ih =>
      simp only [List.map_cons]
      by_cases hp : p.1 = cid
      · rw [if_pos hp, mapGet_cons, mapGet_cons]
        by_cases hk : p.1 = k
        · have hkc : k = cid := hk ▸ hp
          simp [hk, hkc]
        · have hk' : ¬ k = p.1 := fun hc => hk hc.symm
          simp only [hk, if_false]
          rw [ih]
      · rw [if_neg hp, mapGet_cons, mapGet_cons]
        by_cases hk : p.1 = k
        · have hkc : ¬ k = cid := fun hc => hp (hk.symm ▸ hc)
          simp [hk, hkc]
        · simp only [hk, if_false]
          rw [ih]

theorem mapGet_append_left {β : Type} (m l : List (Nat × β)) (k : Nat) (c : β)
    (h : mapGet m k = some c) : mapGet (m ++ l) k = some c := by
  induction m with
  | nil => simp [mapGet] at h
  | cons p rest ih =>
      rw [mapGet_cons] at h
      rw [List.cons_append, mapGet_cons]
      by_cases hp : p.1 = k
      · rwa [if_pos hp] at h ⊢
      · rw [if_neg hp] at h ⊢
        exact ih h

theorem mapGet_append_ne {β : Type} (m : List (Nat × β)) (c k : Nat) (x : β)
    (h : k ≠ c) : mapGet (m ++ [(c, x)]) k = mapGet m k := by
  induction m with
  | nil =>
      have h1 : ¬ (c : Nat) = k := fun hc => h hc.symm
      simp [mapGet_cons, mapGet_nil, h1]
  | cons p rest ih =>
      rw [List.cons_append, mapGet_cons, mapGet_cons]
      by_cases hp : p.1 = k
      · rw [if_pos hp, if_pos hp]
      · rw [if_neg hp, if_neg hp]
        exact ih

theorem cellValue_cellNext_self (s : EntityStore T) (cid : Nat) (v : Option T) (c : Cell T)
    (h : mapGet s.cells cid = some c) : cellValue (cellNext s cid v) cid = v := by
  simp [cellValue, cellNext, mapGet_updAt, h]

theorem cellValue_cellNext_none (s : EntityStore T) (cid : Nat) :
    cellValue (cellNext s cid none) cid = none := by
  simp only [cellValue, cellNext, mapGet_updAt, if_pos rfl]
  cases mapGet s.cells cid <;> rfl

theorem cellValue_cellNext_ne (s : EntityStore T) (cid k : Nat) (v : Option T)
    (h : k ≠ cid) : cellValue (cellNext s cid v) k = cellValue s k := by
  simp [cellValue, cellNext, mapGet_updAt, h]

theorem cellHistory_cellNext_self (s : EntityStore T) (cid : Nat) (v : Option T) (c : Cell T)
    (h : mapGet s.cells cid = some c) :
    cellHistory (cellNext s cid v) cid = cellHistory s cid ++ [v] := by
  simp [cellHistory, cellNext, mapGet_updAt, h]

theorem cellHistory_cellNext_ne (s : EntityStore T) (cid k : Nat) (v : Option T)
    (h : k ≠ cid) : cellHistory (cellNext s cid v) k = cellHistory s k := by
  simp [cellHistory, cellNext, mapGet_updAt, h]

theorem ref_cache_lookup (id : Id) (s : EntityStore T) :
    mapGet (getEntitySubjectRef id s).2.cache (Id.str (getCacheKey id))
      = some (getEntitySubjectRef id s).1 := by
  unfold getEntitySubjectRef
  rcases h : mapGet s.cache (Id.str (getCacheKey id)) with _ | cid
  · simp only [h]
    exact mapGet_mapSet_self s.cache (Id.str (getCacheKey id)) s.nextCell
  · simp only [h]

theorem ref_timers (id : Id) (s : EntityStore T) :
    (getEntitySubjectRef id s).2.timers = s.timers := by
  unfold getEntitySubjectRef
  rcases h : mapGet s.cache (Id.str (getCacheKey id)) with _ | cid <;> simp only [h]

theorem ref_pd (id : Id) (s : EntityStore T) :
    (getEntitySubjectRef id s).2.pendingDeletions = s.pendingDeletions := by
  unfold getEntitySubjectRef
  rcases h : mapGet s.cache (Id.str (getCacheKey id)) with _ | cid <;> simp only [h]

theorem ref_now (id : Id) (s : EntityStore T) :
    (getEntitySubjectRef id s).2.now = s.now := by
  unfold getEntitySubjectRef
  rcases h : mapGet s.cache (Id.str (getCacheKey id)) with _ | cid <;> simp only [h]

theorem ref_signals (id : Id) (s : EntityStore T) :
    (getEntitySubjectRef id s).2.signals = s.signals := by
  unfold getEntitySubjectRef
  rcases h : mapGet s.cache (Id.str (getCacheKey id)) with _ | cid <;> simp only [h]

theorem ref_nextTimer (id : Id) (s : EntityStore T) :
    (getEntitySubjectRef id s).2.nextTimer = s.nextTimer := by
  unfold getEntitySubjectRef
  rcases h : mapGet s.cache (Id.str (getCacheKey id)) with _ | cid <;> simp only [h]

theorem clearTO_fields (h : Option Nat) (s : EntityStore T) :
    (clearTO h s).cells = s.cells ∧ (clearTO h s).cache = s.cache ∧
    (clearTO h s).pendingDeletions = s.pendingDeletions ∧
    (clearTO h s).nextCell = s.nextCell ∧ (clearTO h s).nextTimer = s.nextTimer ∧
    (clearTO h s).now = s.now ∧ (clearTO h s).signals = s.signals := by
  cases h <;> exact ⟨rfl, rfl, rfl, rfl, rfl, rfl, rfl⟩

theorem spd_cells (id : Id) (ct : Nat) (s : EntityStore T) :
    (setPendingDeletion id ct s).cells = s.cells := by
  simp [setPendingDeletion, (clearTO_fields _ s).1]

theorem spd_cache (id : Id) (ct : Nat) (s : EntityStore T) :
    (setPendingDeletion id ct s).cache = s.cache := by
  simp [setPendingDeletion, (clearTO_fields _ s).2.1]

theorem spd_now (id : Id) (ct : Nat) (s : EntityStore T) :
    (setPendingDeletion id ct s).now = s.now := by
  simp [setPendingDeletion, (clearTO_fields _ s).2.2.2.2.2.1]

theorem spd_signals (id : Id) (ct : Nat) (s : EntityStore T) :
    (setPendingDeletion id ct s).signals = s.signals := by
  simp [setPendingDeletion, (clearTO_fields _ s).2.2.2.2.2.2]

theorem spd_nextCell (id : Id) (ct : Nat) (s : EntityStore T) :
    (setPendingDeletion id ct s).nextCell = s.nextCell := by
  simp [setPendingDeletion, (clearTO_fields _ s).2.2.2.1]

theorem cpd_cells (id : Id) (s : EntityStore T) :
    (cancelPendingDeletion id s).cells = s.cells := by
  simp [cancelPendingDeletion, (clearTO_fields _ s).1]

theorem cpd_cache (id : Id) (s : EntityStore T) :
    (cancelPendingDeletion id s).cache = s.cache := by
  simp [cancelPendingDeletion, (clearTO_fields _ s).2.1]

theorem cpd_now (id : Id) (s : EntityStore T) :
    (cancelPendingDeletion id s).now = s.now := by
  simp [cancelPendingDeletion, (clearTO_fields _ s).2.2.2.2.2.1]

theorem cpd_signals (id : Id) (s : EntityStore T) :
    (cancelPendingDeletion id s).signals = s.signals := by
  simp [cancelPendingDeletion, (clearTO_fields _ s).2.2.2.2.2.2]

theorem cpd_nextCell (id : Id) (s : EntityStore T) :
    (cancelPendingDeletion id s).nextCell = s.nextCell := by
  simp [cancelPendingDeletion, (clearTO_fields _ s).2.2.2.1]

theorem valueAtKey_ref (id : Id) (s : EntityStore T) :
    valueAtKey (getEntitySubjectRef id s).2 id
      = cellValue (getEntitySubjectRef id s).2 (getEntitySubjectRef id s).1 := by
  rw [valueAtKey, ref_cache_lookup]
  rfl

theorem ref_hit (id : Id) (s : EntityStore T) (cid : Nat)
    (hm : mapGet s.cache (Id.str (getCacheKey id)) = some cid) :
    getEntitySubjectRef id s = (cid, s) := by
  unfold getEntitySubjectRef
  simp only [hm]

theorem ref_miss (id : Id) (s : EntityStore T)
    (hm : mapGet s.cache (Id.str (getCacheKey id)) = none) :
    getEntitySubjectRef id s =
      (s.nextCell,
       { s with cells := s.cells ++ [(s.nextCell, newCell T)],
                cache := mapSet s.cache (Id.str (getCacheKey id)) s.nextCell,
                nextCell := s.nextCell + 1 }) := by
  unfold getEntitySubjectRef
  simp only [hm]

/-! ### Structure of `setSync` -/

theorem ref_miss_fst (id : Id) (s : EntityStore T)
    (hm : mapGet s.cache (Id.str (getCacheKey id)) = none) :
    (getEntitySubjectRef id s).1 = s.nextCell := by
  unfold getEntitySubjectRef
  simp only [hm]

theorem ref_miss_cells (id : Id) (s : EntityStore T)
    (hm : mapGet s.cache (Id.str (getCacheKey id)) = none) :
    (getEntitySubjectRef id s).2.cells = s.cells ++ [(s.nextCell, newCell T)] := by
  unfold getEntitySubjectRef
  simp only [hm]

theorem ref_miss_cache (id : Id) (s : EntityStore T)
    (hm : mapGet s.cache (Id.str (getCacheKey id)) = none) :
    (getEntitySubjectRef id s).2.cache
      = mapSet s.cache (Id.str (getCacheKey id)) s.nextCell := by
  unfold getEntitySubjectRef
  simp only [hm]

theorem ref_miss_nextCell (id : Id) (s : EntityStore T)
    (hm : mapGet s.cache (Id.str (getCacheKey id)) = none) :
    (getEntitySubjectRef id s).2.nextCell = s.nextCell + 1 := by
  unfold getEntitySubjectRef
  simp only [hm]

theorem ref_cellValue (id : Id) (s : EntityStore T)
    (hcf : ∀ p ∈ s.cells, p.1 < s.nextCell) :
    cellValue (getEntitySubjectRef id s).2 (getEntitySubjectRef id s).1
      = valueAtKey s id := by
  rcases hm : mapGet s.cache (Id.str (getCacheKey id)) with _ | cid
  · have hfresh : ∀ p ∈ s.cells, p.1 ≠ s.nextCell := fun p hp => Nat.ne_of_lt (hcf p hp)
    rw [cellValue, ref_miss_cells _ _ hm, ref_miss_fst _ _ hm,
      mapGet_append_fresh s.cells s.nextCell (newCell T) hfresh, valueAtKey, hm]
    rfl
  · rw [ref_hit _ _ _ hm, valueAtKey, hm]
    rfl

theorem ref_cellHistory (id : Id) (s : EntityStore T)
    (hcf : ∀ p ∈ s.cells, p.1 < s.nextCell) :
    cellHistory (getEntitySubjectRef id s).2 (getEntitySubjectRef id s).1
      = cellHistory s (getEntitySubjectRef id s).1 := by
  rcases hm : mapGet s.cache (Id.str (getCacheKey id)) with _ | cid
  · have hfresh : ∀ p ∈ s.cells, p.1 ≠ s.nextCell := fun p hp => Nat.ne_of_lt (hcf p hp)
    rw [cellHistory, cellHistory, ref_miss_cells _ _ hm, ref_miss_fst _ _ hm,
      mapGet_append_fresh s.cells s.nextCell (newCell T) hfresh,
      mapGet_eq_none s.cells s.nextCell hfresh]
    rfl
  · rw [ref_hit _ _ _ hm]

theorem ref_cell_exists (id : Id) (s : EntityStore T)
    (hcf : ∀ p ∈ s.cells, p.1 < s.nextCell)
    (hrefs : ∀ p ∈ s.cache, (mapGet s.cells p.2).isSome) :
    ∃ c, mapGet (getEntitySubjectRef id s).2.cells (getEntitySubjectRef id s).1 = some c := by
  rcases hm : mapGet s.cache (Id.str (getCacheKey id)) with _ | cid
  · have hfresh : ∀ p ∈ s.cells, p.1 ≠ s.nextCell := fun p hp => Nat.ne_of_lt (hcf p hp)
    rw [ref_miss_cells _ _ hm, ref_miss_fst _ _ hm]
    exact ⟨newCell T, mapGet_append_fresh s.cells s.nextCell (newCell T) hfresh⟩
  · rw [ref_hit _ _ _ hm]
    have hmem := mapGet_mem s.cache _ cid hm
    have hs := hrefs _ hmem
    rcases hx : mapGet s.cells cid with _ | c
    · rw [hx] at hs
      simp at hs
    · exact ⟨c, rfl⟩

/-- A `set` whose value is identical (by reference) to the currently stored
value is a complete no-op on the store state. -/
theorem setSync_stored_noop (ctx : EmbCtx T) (s : EntityStore T) (v : T) (ct : Nat)
    (h : valueAtKey s (ctx.idAccessor v) = some v) :
    setSync ctx v ct s = s := by
  rcases hm : mapGet s.cache (Id.str (getCacheKey (ctx.idAccessor v))) with _ | cid
  · rw [valueAtKey, hm] at h
    simp at h
  · rw [valueAtKey, hm] at h
    have hv : cellValue s cid = some v := h
    unfold setSync
    simp only [ref_hit _ _ _ hm, hv, Option.isNone_some, Bool.false_or,
      decide_eq_true_eq, ne_eq, not_true_eq_false, decide_False, if_false]
    rfl

/-- A `set` of a value that differs (by reference) from the stored one:
the key's subject ends up holding the value, exactly one emission is pushed
into its log, and exactly one change signal is posted. -/
theorem setSync_spec (ctx : EmbCtx T) (s : EntityStore T) (v : T) (ct : Nat)
    (hcf : ∀ p ∈ s.cells, p.1 < s.nextCell)
    (hrefs : ∀ p ∈ s.cache, (mapGet s.cells p.2).isSome)
    (hnew : valueAtKey s (ctx.idAccessor v) ≠ some v) :
    ∃ cid, mapGet (setSync ctx v ct s).cache (Id.str (getCacheKey (ctx.idAccessor v))) = some cid ∧
      cellValue (setSync ctx v ct s) cid = some v ∧
      cellHistory (setSync ctx v ct s) cid = cellHistory s cid ++ [some v] ∧
      (setSync ctx v ct s).signals = s.signals ++ [s.now] := by
  refine ⟨(getEntitySubjectRef (ctx.idAccessor v) s).1, ?_⟩
  have hb : ((cellValue (getEntitySubjectRef (ctx.idAccessor v) s).2
        (getEntitySubjectRef (ctx.idAccessor v) s).1).isNone
      || decide (cellValue (getEntitySubjectRef (ctx.idAccessor v) s).2
        (getEntitySubjectRef (ctx.idAccessor v) s).1 ≠ some v)) = true := by
    rw [ref_cellValue _ _ hcf]
    rcases hw : valueAtKey s (ctx.idAccessor v) with _ | w
    · rfl
    · rw [hw] at hnew
      simp [hnew]
  obtain ⟨c, hc⟩ := ref_cell_exists (ctx.idAccessor v) s hcf hrefs
  have hred : setSync ctx v ct s
      = postSignal (cellNext
          (setPendingDeletion (ctx.idAccessor v) ct (getEntitySubjectRef (ctx.idAccessor v) s).2)
          (getEntitySubjectRef (ctx.idAccessor v) s).1 (some v)) := by
    unfold setSync
    simp only [hb, if_true]
  rw [hred]
  have hgetspd : mapGet (setPendingDeletion (ctx.idAccessor v) ct
      (getEntitySubjectRef (ctx.idAccessor v) s).2).cells
      (getEntitySubjectRef (ctx.idAccessor v) s).1 = some c := by
    rw [spd_cells]
    exact hc
  refine ⟨?_, ?_, ?_, ?_⟩
  · rw [show (postSignal (cellNext
        (setPendingDeletion (ctx.idAccessor v) ct (getEntitySubjectRef (ctx.idAccessor v) s).2)
        (getEntitySubjectRef (ctx.idAccessor v) s).1 (some v))).cache
      = (setPendingDeletion (ctx.idAccessor v) ct (getEntitySubjectRef (ctx.idAccessor v) s).2).cache
      from rfl]
    rw [spd_cache]
    exact ref_cache_lookup _ _
  · rw [show cellValue (postSignal (cellNext
        (setPendingDeletion (ctx.idAccessor v) ct (getEntitySubjectRef (ctx.idAccessor v) s).2)
        (getEntitySubjectRef (ctx.idAccessor v) s).1 (some v)))
        (getEntitySubjectRef (ctx.idAccessor v) s).1
      = cellValue (cellNext
        (setPendingDeletion (ctx.idAccessor v) ct (getEntitySubjectRef (ctx.idAccessor v) s).2)
        (getEntitySubjectRef (ctx.idAccessor v) s).1 (some v))
        (getEntitySubjectRef (ctx.idAccessor v) s).1
      from rfl]
    exact cellValue_cellNext_self _ _ _ _ hgetspd
  · rw [show cellHistory (postSignal (cellNext
        (setPendingDeletion (ctx.idAccessor v) ct (getEntitySubjectRef (ctx.idAccessor v) s).2)
        (getEntitySubjectRef (ctx.idAccessor v) s).1 (some v)))
        (getEntitySubjectRef (ctx.idAccessor v) s).1
      = cellHistory (cellNext
        (setPendingDeletion (ctx.idAccessor v) ct (getEntitySubjectRef (ctx.idAccessor v) s).2)
        (getEntitySubjectRef (ctx.idAccessor v) s).1 (some v))
        (getEntitySubjectRef (ctx.idAccessor v) s).1
      from rfl]
    rw [cellHistory_cellNext_self _ _ _ _ hgetspd]
    have h1 : cellHistory (setPendingDeletion (ctx.idAccessor v) ct
        (getEntitySubjectRef (ctx.idAccessor v) s).2) (getEntitySubjectRef (ctx.idAccessor v) s).1
        = cellHistory (getEntitySubjectRef (ctx.idAccessor v) s).2
            (getEntitySubjectRef (ctx.idAccessor v) s).1 := by
      rw [cellHistory, spd_cells, cellHistory]
    rw [h1, ref_cellHistory _ _ hcf]
  · rw [show (postSignal (cellNext
        (setPendingDeletion (ctx.idAccessor v) ct (getEntitySubjectRef (ctx.idAccessor v) s).2)
        (getEntitySubjectRef (ctx.idAccessor v) s).1 (some v))).signals
      = (setPendingDeletion (ctx.idAccessor v) ct (getEntitySubjectRef (ctx.idAccessor v) s).2).signals
        ++ [(setPendingDeletion (ctx.idAccessor v) ct (getEntitySubjectRef (ctx.idAccessor v) s).2).now]
      from rfl]
    rw [spd_signals, spd_now, ref_signals, ref_now]

/-! ### Structure of `deleteSync` -/

theorem deleteSync_inl (ctx : EmbCtx T) (v : T) (s : EntityStore T) :
    deleteSync ctx (Sum.inl v) s = deleteSync ctx (Sum.inr (ctx.idAccessor v)) s := rfl

theorem deleteSync_red (ctx : EmbCtx T) (i : Id) (s : EntityStore T) :
    deleteSync ctx (Sum.inr i) s
      = postSignal (cancelPendingDeletion i
          (cacheDelete (cellNext (getEntitySubjectRef i s).2 (getEntitySubjectRef i s).1 none) i)) :=
  rfl

theorem deleteSync_cells (ctx : EmbCtx T) (i : Id) (s : EntityStore T) :
    (deleteSync ctx (Sum.inr i) s).cells
      = (cellNext (getEntitySubjectRef i s).2 (getEntitySubjectRef i s).1 none).cells := by
  rw [deleteSync_red]
  rw [show (postSignal (cancelPendingDeletion i
      (cacheDelete (cellNext (getEntitySubjectRef i s).2 (getEntitySubjectRef i s).1 none) i))).cells
    = (cancelPendingDeletion i
      (cacheDelete (cellNext (getEntitySubjectRef i s).2 (getEntitySubjectRef i s).1 none) i)).cells
    from rfl]
  rw [cpd_cells]
  rfl

theorem deleteSync_cache (ctx : EmbCtx T) (i : Id) (s : EntityStore T) :
    (deleteSync ctx (Sum.inr i) s).cache
      = mapDelete (getEntitySubjectRef i s).2.cache i := by
  rw [deleteSync_red]
  rw [show (postSignal (cancelPendingDeletion i
      (cacheDelete (cellNext (getEntitySubjectRef i s).2 (getEntitySubjectRef i s).1 none) i))).cache
    = (cancelPendingDeletion i
      (cacheDelete (cellNext (getEntitySubjectRef i s).2 (getEntitySubjectRef i s).1 none) i)).cache
    from rfl]
  rw [cpd_cache]
  rfl

theorem deleteSync_timers (ctx : EmbCtx T) (i : Id) (s : EntityStore T) :
    (deleteSync ctx (Sum.inr i) s).timers
      = (clearTO (mapGet s.pendingDeletions i)
          (cacheDelete (cellNext (getEntitySubjectRef i s).2 (getEntitySubjectRef i s).1 none) i)).timers := by
  rw [deleteSync_red]
  have h1 : (cacheDelete (cellNext (getEntitySubjectRef i s).2 (getEntitySubjectRef i s).1 none) i).pendingDeletions
      = s.pendingDeletions := by
    rw [show (cacheDelete (cellNext (getEntitySubjectRef i s).2 (getEntitySubjectRef i s).1 none) i).pendingDeletions
      = (getEntitySubjectRef i s).2.pendingDeletions from rfl]
    exact ref_pd i s
  rw [show (postSignal (cancelPendingDeletion i
      (cacheDelete (cellNext (getEntitySubjectRef i s).2 (getEntitySubjectRef i s).1 none) i))).timers
    = (cancelPendingDeletion i
      (cacheDelete (cellNext (getEntitySubjectRef i s).2 (getEntitySubjectRef i s).1 none) i)).timers
    from rfl]
  rw [show (cancelPendingDeletion i
      (cacheDelete (cellNext (getEntitySubjectRef i s).2 (getEntitySubjectRef i s).1 none) i)).timers
    = (clearTO (mapGet (cacheDelete (cellNext (getEntitySubjectRef i s).2 (getEntitySubjectRef i s).1 none) i).pendingDeletions i)
      (cacheDelete (cellNext (getEntitySubjectRef i s).2 (getEntitySubjectRef i s).1 none) i)).timers
    from rfl]
  rw [h1]

theorem clearTO_timers_sublist (h : Option Nat) (s : EntityStore T) :
    (clearTO h s).timers.Sublist s.timers := by
  cases h with
  | none => exact List.Sublist.refl _
  | some h => exact List.filter_sublist s.timers

theorem deleteSync_timers_sublist (ctx : EmbCtx T) (i : Id) (s : EntityStore T) :
    (deleteSync ctx (Sum.inr i) s).timers.Sublist s.timers := by
  rw [deleteSync_timers]
  have h2 : (cacheDelete (cellNext (getEntitySubjectRef i s).2 (getEntitySubjectRef i s).1 none) i).timers
      = s.timers := by
    rw [show (cacheDelete (cellNext (getEntitySubjectRef i s).2 (getEntitySubjectRef i s).1 none) i).timers
      = (getEntitySubjectRef i s).2.timers from rfl]
    exact ref_timers i s
  have := clearTO_timers_sublist (mapGet s.pendingDeletions i)
    (cacheDelete (cellNext (getEntitySubjectRef i s).2 (getEntitySubjectRef i s).1 none) i)
  rw [h2] at this
  exact this

theorem deleteSync_pd (ctx : EmbCtx T) (i : Id) (s : EntityStore T) :
    (deleteSync ctx (Sum.inr i) s).pendingDeletions
      = mapDelete s.pendingDeletions i := by
  rw [deleteSync_red]
  rw [show (postSignal (cancelPendingDeletion i
      (cacheDelete (cellNext (getEntitySubjectRef i s).2 (getEntitySubjectRef i s).1 none) i))).pendingDeletions
    = (cancelPendingDeletion i
      (cacheDelete (cellNext (getEntitySubjectRef i s).2 (getEntitySubjectRef i s).1 none) i)).pendingDeletions
    from rfl]
  rw [show (cancelPendingDeletion i
      (cacheDelete (cellNext (getEntitySubjectRef i s).2 (getEntitySubjectRef i s).1 none) i)).pendingDeletions
    = mapDelete (clearTO (mapGet (cacheDelete (cellNext (getEntitySubjectRef i s).2 (getEntitySubjectRef i s).1 none) i).pendingDeletions i)
        (cacheDelete (cellNext (getEntitySubjectRef i s).2 (getEntitySubjectRef i s).1 none) i)).pendingDeletions i
    from rfl]
  have h1 : (cacheDelete (cellNext (getEntitySubjectRef i s).2 (getEntitySubjectRef i s).1 none) i).pendingDeletions
      = s.pendingDeletions := by
    rw [show (cacheDelete (cellNext (getEntitySubjectRef i s).2 (getEntitySubjectRef i s).1 none) i).pendingDeletions
      = (getEntitySubjectRef i s).2.pendingDeletions from rfl]
    exact ref_pd i s
  rw [show (clearTO (mapGet (cacheDelete (cellNext (getEntitySubjectRef i s).2 (getEntitySubjectRef i s).1 none) i).pendingDeletions i)
      (cacheDelete (cellNext (getEntitySubjectRef i s).2 (getEntitySubjectRef i s).1 none) i)).pendingDeletions
    = (cacheDelete (cellNext (getEntitySubjectRef i s).2 (getEntitySubjectRef i s).1 none) i).pendingDeletions
    from (clearTO_fields _ _).2.2.1]
  rw [h1]

theorem deleteSync_signals (ctx : EmbCtx T) (i : Id) (s : EntityStore T) :
    (deleteSync ctx (Sum.inr i) s).signals = s.signals ++ [s.now] := by
  rw [deleteSync_red]
  rw [show (postSignal (cancelPendingDeletion i
      (cacheDelete (cellNext (getEntitySubjectRef i s).2 (getEntitySubjectRef i s).1 none) i))).signals
    = (cancelPendingDeletion i
        (cacheDelete (cellNext (getEntitySubjectRef i s).2 (getEntitySubjectRef i s).1 none) i)).signals
      ++ [(cancelPendingDeletion i
        (cacheDelete (cellNext (getEntitySubjectRef i s).2 (getEntitySubjectRef i s).1 none) i)).now]
    from rfl]
  rw [cpd_signals, cpd_now]
  rw [show (cacheDelete (cellNext (getEntitySubjectRef i s).2 (getEntitySubjectRef i s).1 none) i).signals
    = (getEntitySubjectRef i s).2.signals from rfl]
  rw [show (cacheDelete (cellNext (getEntitySubjectRef i s).2 (getEntitySubjectRef i s).1 none) i).now
    = (getEntitySubjectRef i s).2.now from rfl]
  rw [ref_signals, ref_now]

theorem valueAtKey_deleteSync_self (ctx : EmbCtx T) (i : Id) (s : EntityStore T) (k : Id)
    (hk : getCacheKey k = getCacheKey i) :
    valueAtKey (deleteSync ctx (Sum.inr i) s) k = none := by
  rw [valueAtKey, deleteSync_cache, hk]
  by_cases hik : Id.str (getCacheKey i) = i
  · rw [show mapGet (mapDelete (getEntitySubjectRef i s).2.cache i) (Id.str (getCacheKey i))
      = mapGet (mapDelete (getEntitySubjectRef i s).2.cache i) i from by rw [hik]]
    rw [mapGet_mapDelete_self]
    rfl
  · rw [mapGet_mapDelete_ne _ _ _ hik, ref_cache_lookup]
    rw [show ((some (getEntitySubjectRef i s).1).bind fun cid =>
        cellValue (deleteSync ctx (Sum.inr i) s) cid)
      = cellValue (deleteSync ctx (Sum.inr i) s) (getEntitySubjectRef i s).1 from rfl]
    rw [show cellValue (deleteSync ctx (Sum.inr i) s) (getEntitySubjectRef i s).1
      = cellValue (cellNext (getEntitySubjectRef i s).2 (getEntitySubjectRef i s).1 none)
          (getEntitySubjectRef i s).1 from by rw [cellValue, deleteSync_cells, cellValue]]
    exact cellValue_cellNext_none _ _

theorem valueAtKey_deleteSync_none (ctx : EmbCtx T) (i : Id) (s : EntityStore T) (k : Id)
    (h : valueAtKey s k = none) :
    valueAtKey (deleteSync ctx (Sum.inr i) s) k = none := by
  rw [valueAtKey, deleteSync_cache]
  by_cases hA : Id.str (getCacheKey k) = i
  · rw [hA, mapGet_mapDelete_self]
    rfl
  · rw [mapGet_mapDelete_ne _ _ _ hA]
    by_cases hB : Id.str (getCacheKey k) = Id.str (getCacheKey i)
    · rw [hB, ref_cache_lookup]
      rw [show ((some (getEntitySubjectRef i s).1).bind fun cid =>
          cellValue (deleteSync ctx (Sum.inr i) s) cid)
        = cellValue (deleteSync ctx (Sum.inr i) s) (getEntitySubjectRef i s).1 from rfl]
      rw [show cellValue (deleteSync ctx (Sum.inr i) s) (getEntitySubjectRef i s).1
        = cellValue (cellNext (getEntitySubjectRef i s).2 (getEntitySubjectRef i s).1 none)
            (getEntitySubjectRef i s).1 from by rw [cellValue, deleteSync_cells, cellValue]]
      exact cellValue_cellNext_none _ _
    · have hcv : ∀ cid, mapGet (getEntitySubjectRef i s).2.cache (Id.str (getCacheKey k)) = some cid →
          cellValue (deleteSync ctx (Sum.inr i) s) cid = none := by
        intro cid hcid
        have hcell : cellValue (deleteSync ctx (Sum.inr i) s) cid
            = cellValue (cellNext (getEntitySubjectRef i s).2 (getEntitySubjectRef i s).1 none) cid := by
          rw [cellValue, deleteSync_cells, cellValue]
        rw [hcell]
        by_cases hcc : cid = (getEntitySubjectRef i s).1
        · rw [hcc]
          exact cellValue_cellNext_none _ _
        · rw [cellValue_cellNext_ne _ _ _ _ hcc]
          -- the subject predates this call, so its value is the one `h` constrains
          rcases hm : mapGet s.cache (Id.str (getCacheKey i)) with _ | cid0
          · rw [ref_miss_cache _ _ hm, mapGet_mapSet_ne _ _ _ _ hB] at hcid
            have hcid' : mapGet s.cache (Id.str (getCacheKey k)) = some cid := hcid
            rw [valueAtKey, hcid'] at h
            have hv : cellValue s cid = none := h
            rw [cellValue, ref_miss_cells _ _ hm]
            have hne : cid ≠ s.nextCell := by
              rw [ref_miss_fst _ _ hm] at hcc
              exact hcc
            rw [mapGet_append_ne _ _ _ _ hne]
            rw [cellValue] at hv
            exact hv
          · rw [ref_hit _ _ _ hm] at hcid ⊢
            have hcid' : mapGet s.cache (Id.str (getCacheKey k)) = some cid := hcid
            rw [valueAtKey, hcid'] at h
            exact h
      rcases hmk : mapGet (getEntitySubjectRef i s).2.cache (Id.str (getCacheKey k)) with _ | cid
      · rfl
      · exact hcv cid hmk

/-- When a timer's callback `deleteSync(tid)` runs, any OTHER armed timer
either survives, or the pending-deletion bookkeeping maps `tid` to its
handle, in which case (by consistency) that timer targets `tid` itself. -/
theorem deleteSync_timer_kept (ctx : EmbCtx T) (tid : Id) (s : EntityStore T)
    (h : Nat) (i : Id) (d : Nat)
    (htm : (h, i, d) ∈ s.timers) (hpd : pdConsistent s) :
    (h, i, d) ∈ (deleteSync ctx (Sum.inr tid) s).timers ∨ tid = i := by
  rw [deleteSync_timers]
  have h2 : (cacheDelete (cellNext (getEntitySubjectRef tid s).2 (getEntitySubjectRef tid s).1 none) tid).timers
      = s.timers := by
    rw [show (cacheDelete (cellNext (getEntitySubjectRef tid s).2 (getEntitySubjectRef tid s).1 none) tid).timers
      = (getEntitySubjectRef tid s).2.timers from rfl]
    exact ref_timers tid s
  rcases hm : mapGet s.pendingDeletions tid with _ | h'
  · left
    rw [show (clearTO none
        (cacheDelete (cellNext (getEntitySubjectRef tid s).2 (getEntitySubjectRef tid s).1 none) tid)).timers
      = (cacheDelete (cellNext (getEntitySubjectRef tid s).2 (getEntitySubjectRef tid s).1 none) tid).timers
      from rfl]
    rw [h2]
    exact htm
  · by_cases hh : h = h'
    · right
      have hmem := mapGet_mem s.pendingDeletions tid h' hm
      exact (hpd (tid, h') hmem (h, i, d) htm (by rw [hh])).symm
    · left
      rw [show (clearTO (some h')
          (cacheDelete (cellNext (getEntitySubjectRef tid s).2 (getEntitySubjectRef tid s).1 none) tid)).timers
        = (cacheDelete (cellNext (getEntitySubjectRef tid s).2 (getEntitySubjectRef tid s).1 none) tid).timers.filter
            (fun y => decide (y.1 ≠ h')) from rfl]
      rw [h2]
      exact List.mem_filter.mpr ⟨htm, by simpa using hh⟩

/-! ### The event loop evicts every key whose timer comes due -/

theorem filter_length_lt {β : Type} (l : List β) (p : β → Bool) (x : β)
    (hx : x ∈ l) (hpx : p x = false) : (l.filter p).length < l.length := by
  induction l with
  | nil => simp at hx
  | cons a rest ih =>
      rcases List.mem_cons.mp hx with h1 | h1
      · rw [← h1, List.filter_cons, hpx]
        have := List.length_filter_le p rest
        simpa using Nat.lt_succ_of_le this
      · rw [List.filter_cons]
        cases hpa : p a
        · simpa using Nat.lt_succ_of_lt (ih h1)
        · simpa using Nat.succ_lt_succ (ih h1)

theorem find?_key_of_mem_nodup {β : Type} (l : List (Nat × β))
    (hnd : (l.map Prod.fst).Nodup) (x : Nat × β) (hx : x ∈ l) :
    l.find? (fun y => decide (y.1 = x.1)) = some x := by
  induction l with
  | nil => simp at hx
  | cons a rest ih =>
      simp only [List.map_cons, List.nodup_cons] at hnd
      rcases List.mem_cons.mp hx with h1 | h1
      · rw [← h1]
        simp [List.find?]
      · have ha : ¬ a.1 = x.1 := fun hc => hnd.1 (List.mem_map.mpr ⟨x, h1, hc.symm⟩)
        simp only [List.find?, ha, decide_False]
        exact ih hnd.2 h1

theorem dueMin_mem (t : Nat) (timers : List (Nat × Id × Nat)) (x : Nat × Id × Nat)
    (h : dueMin t timers = some x) : x ∈ timers ∧ x.2.2 ≤ t := by
  have hmem : x ∈ timers.filter (fun y => decide (y.2.2 ≤ t)) := List.argmin_mem h
  refine ⟨(List.mem_filter.mp hmem).1, ?_⟩
  have := (List.mem_filter.mp hmem).2
  simpa using this

theorem dueMin_ne_none (t : Nat) (timers : List (Nat × Id × Nat)) (x : Nat × Id × Nat)
    (hx : x ∈ timers) (hd : x.2.2 ≤ t) : dueMin t timers ≠ none := by
  intro hc
  rw [dueMin, List.argmin_eq_none] at hc
  have : x ∈ timers.filter (fun y => decide (y.2.2 ≤ t)) :=
    List.mem_filter.mpr ⟨hx, by simpa using hd⟩
  rw [hc] at this
  simp at this

theorem runUntil_succ_none (ctx : EmbCtx T) (fuel t : Nat) (s : EntityStore T)
    (h : dueMin t s.timers = none) :
    runUntil ctx (fuel + 1) t s = { s with now := t } := by
  rw [runUntil, h]

theorem runUntil_succ_some (ctx : EmbCtx T) (fuel t : Nat) (s : EntityStore T)
    (x : Nat × Id × Nat) (h : dueMin t s.timers = some x) :
    runUntil ctx (fuel + 1) t s = runUntil ctx fuel t (fireTimer ctx x.1 s) := by
  rw [runUntil, h]

/-- Main eviction lemma: whenever the pending-deletion bookkeeping is
consistent and an armed timer targeting `i` comes due by time `t`, running
the event loop to `t` leaves the key of `i` absent — regardless of how many
observers any subject has, because no timer callback consults them. -/
theorem runUntil_evicts (ctx : EmbCtx T) (i : Id) :
    ∀ (fuel t : Nat) (s : EntityStore T), s.timers.length ≤ fuel → pdConsistent s →
      timerHandlesNodup s →
      (valueAtKey s (Id.str (getCacheKey i)) = none ∨
        ∃ h d, (h, i, d) ∈ s.timers ∧ d ≤ t) →
      valueAtKey (runUntil ctx fuel t s) (Id.str (getCacheKey i)) = none := by
  intro fuel
  induction fuel with
  | zero =>
      intro t s hlen hpd hnd hdisj
      have htimers : s.timers = [] := List.length_eq_zero.mp (Nat.le_zero.mp hlen)
      rcases hdisj with hval | ⟨h, d, htm, _⟩
      · exact hval
      · rw [htimers] at htm
        simp at htm
  | succ fuel ih =>
      intro t s hlen hpd hnd hdisj
      rcases hdm : dueMin t s.timers with _ | x
      · rw [runUntil_succ_none ctx fuel t s hdm]
        rcases hdisj with hval | ⟨h, d, htm, hdt⟩
        · exact hval
        · exact absurd hdm (dueMin_ne_none t s.timers (h, i, d) htm hdt)
      · obtain ⟨hxmem, hxdue⟩ := dueMin_mem t s.timers x hdm
        have hfind : s.timers.find? (fun y => decide (y.1 = x.1)) = some x :=
          find?_key_of_mem_nodup s.timers hnd x hxmem
        have hfire : fireTimer ctx x.1 s
            = deleteSync ctx (Sum.inr x.2.1) (dropTimer s x.1 x.2.2) := by
          rw [fireTimer, hfind]
        rw [runUntil_succ_some ctx fuel t s x hdm, hfire]
        have hsDtimers : (dropTimer s x.1 x.2.2).timers
            = s.timers.filter (fun y => decide (y.1 ≠ x.1)) := rfl
        have hsDsub : (dropTimer s x.1 x.2.2).timers.Sublist s.timers := by
          rw [hsDtimers]
          exact List.filter_sublist s.timers
        have hlt : (dropTimer s x.1 x.2.2).timers.length < s.timers.length := by
          rw [hsDtimers]
          exact filter_length_lt s.timers _ x hxmem (by simp)
        have hsub' : (deleteSync ctx (Sum.inr x.2.1) (dropTimer s x.1 x.2.2)).timers.Sublist s.timers :=
          (deleteSync_timers_sublist ctx x.2.1 (dropTimer s x.1 x.2.2)).trans hsDsub
        apply ih t (deleteSync ctx (Sum.inr x.2.1) (dropTimer s x.1 x.2.2))
        · have h1 := (deleteSync_timers_sublist ctx x.2.1 (dropTimer s x.1 x.2.2)).length_le
          omega
        · intro p hp y hy
          have hp' : p ∈ s.pendingDeletions := by
            rw [deleteSync_pd] at hp
            have hsDpd : (dropTimer s x.1 x.2.2).pendingDeletions = s.pendingDeletions := rfl
            rw [hsDpd] at hp
            exact List.mem_of_mem_filter hp
          exact hpd p hp' y (hsub'.subset hy)
        · exact List.Nodup.sublist (hsub'.map Prod.fst) hnd
        · rcases hdisj with hval | ⟨h, d, htm, hdt⟩
          · left
            have hvalD : valueAtKey (dropTimer s x.1 x.2.2) (Id.str (getCacheKey i)) = none := hval
            exact valueAtKey_deleteSync_none ctx x.2.1 (dropTimer s x.1 x.2.2) _ hvalD
          · by_cases hhx : h = x.1
            · have hx_eq : (h, i, d) = x :=
                nodup_keys_mem_eq s.timers hnd (h, i, d) x htm hxmem (by rw [hhx])
              have hxi : x.2.1 = i := by rw [← hx_eq]
              left
              apply valueAtKey_deleteSync_self ctx x.2.1 (dropTimer s x.1 x.2.2)
              rw [hxi]
              rfl
            · have htmD : (h, i, d) ∈ (dropTimer s x.1 x.2.2).timers := by
                rw [hsDtimers]
                exact List.mem_filter.mpr ⟨htm, by simpa using hhx⟩
              have hpdD : pdConsistent (dropTimer s x.1 x.2.2) := by
                intro p hp y hy
                exact hpd p hp y (hsDsub.subset hy)
              rcases deleteSync_timer_kept ctx x.2.1 (dropTimer s x.1 x.2.2) h i d htmD hpdD with hkeep | htid
              · right
                exact ⟨h, d, hkeep, hdt⟩
              · left
                apply valueAtKey_deleteSync_self ctx x.2.1 (dropTimer s x.1 x.2.2)
                rw [htid]
                rfl

/-! ### The cache-map invariant: one Cell per normalized key -/

/-- The structural invariant carried by every reachable store: cache keys
are in normalized text form and are unique. -/
def StInv (s : EntityStore T) : Prop := normKeys s ∧ cacheKeysNodup s

theorem stInv_of_cache_eq (s s' : EntityStore T) (h : s'.cache = s.cache)
    (hs : StInv s) : StInv s' := by
  constructor
  · intro p hp
    exact hs.1 p (h ▸ hp)
  · rw [cacheKeysNodup, h]
    exact hs.2

theorem stInv_ref (id : Id) (s : EntityStore T) (hs : StInv s) :
    StInv (getEntitySubjectRef id s).2 := by
  rcases hm : mapGet s.cache (Id.str (getCacheKey id)) with _ | cid
  · constructor
    · intro p hp
      rw [ref_miss_cache _ _ hm] at hp
      rcases mem_mapSet _ _ _ p hp with h1 | h1
      · rw [h1]
        rfl
      · exact hs.1 p h1
    · rw [cacheKeysNodup, ref_miss_cache _ _ hm]
      exact mapSet_keys_nodup _ _ _ hs.2
  · rw [ref_hit _ _ _ hm]
    exact hs

theorem setSync_cache_eq (ctx : EmbCtx T) (v : T) (ct : Nat) (s : EntityStore T) :
    (setSync ctx v ct s).cache = (getEntitySubjectRef (ctx.idAccessor v) s).2.cache := by
  cases hb : ((cellValue (getEntitySubjectRef (ctx.idAccessor v) s).2
        (getEntitySubjectRef (ctx.idAccessor v) s).1).isNone
      || decide (cellValue (getEntitySubjectRef (ctx.idAccessor v) s).2
        (getEntitySubjectRef (ctx.idAccessor v) s).1 ≠ some v)) with
  | false =>
      unfold setSync
      simp only [hb]
      rfl
  | true =>
      unfold setSync
      simp only [hb, if_true]
      rw [show (postSignal (cellNext
          (setPendingDeletion (ctx.idAccessor v) ct (getEntitySubjectRef (ctx.idAccessor v) s).2)
          (getEntitySubjectRef (ctx.idAccessor v) s).1 (some v))).cache
        = (setPendingDeletion (ctx.idAccessor v) ct
            (getEntitySubjectRef (ctx.idAccessor v) s).2).cache from rfl]
      rw [spd_cache]

theorem stInv_setSync (ctx : EmbCtx T) (v : T) (ct : Nat) (s : EntityStore T)
    (hs : StInv s) : StInv (setSync ctx v ct s) :=
  stInv_of_cache_eq _ _ (setSync_cache_eq ctx v ct s) (stInv_ref _ s hs)

theorem stInv_deleteSync (ctx : EmbCtx T) (inp : T ⊕ Id) (s : EntityStore T)
    (hs : StInv s) : StInv (deleteSync ctx inp s) := by
  have key : ∀ i : Id, StInv (deleteSync ctx (Sum.inr i) s) := by
    intro i
    have hr := stInv_ref i s hs
    constructor
    · intro p hp
      rw [deleteSync_cache] at hp
      exact hr.1 p (List.mem_of_mem_filter hp)
    · rw [cacheKeysNodup, deleteSync_cache]
      exact mapDelete_keys_nodup _ _ hr.2
  cases inp with
  | inl v => rw [deleteSync_inl]; exact key _
  | inr i => exact key i

theorem stInv_fireTimer (ctx : EmbCtx T) (h : Nat) (s : EntityStore T)
    (hs : StInv s) : StInv (fireTimer ctx h s) := by
  rcases hf : s.timers.find? (fun x => decide (x.1 = h)) with _ | x
  · rw [fireTimer, hf]
    exact hs
  · rw [fireTimer, hf]
    exact stInv_deleteSync ctx _ _ (stInv_of_cache_eq s _ rfl hs)

theorem stInv_runUntil (ctx : EmbCtx T) :
    ∀ (fuel t : Nat) (s : EntityStore T), StInv s → StInv (runUntil ctx fuel t s) := by
  intro fuel
  induction fuel with
  | zero =>
      intro t s hs
      exact stInv_of_cache_eq s _ rfl hs
  | succ fuel ih =>
      intro t s hs
      rcases hdm : dueMin t s.timers with _ | x
      · rw [runUntil_succ_none ctx fuel t s hdm]
        exact stInv_of_cache_eq s _ rfl hs
      · rw [runUntil_succ_some ctx fuel t s x hdm]
        exact ih t _ (stInv_fireTimer ctx x.1 s hs)

theorem stInv_clearStore (s : EntityStore T) : StInv (clearStore s) := by
  constructor
  · intro p hp
    simp [clearStore, postSignal] at hp
  · rw [cacheKeysNodup]
    simp [clearStore, postSignal]

theorem stInv_applyOp (ctx : EmbCtx T) (o : Op T) (s : EntityStore T)
    (hs : StInv s) : StInv (applyOp ctx s o) := by
  cases o with
  | setOp v ct => exact stInv_setSync ctx v ct s hs
  | delEnt v => exact stInv_deleteSync ctx (Sum.inl v) s hs
  | delKey k => exact stInv_deleteSync ctx (Sum.inr k) s hs
  | getOp k => exact stInv_ref k s hs
  | clearOp => exact stInv_clearStore s
  | advanceOp d => exact stInv_runUntil ctx _ _ s hs

theorem stInv_runOps (ctx : EmbCtx T) (ops : List (Op T)) :
    ∀ s : EntityStore T, StInv s → StInv (runOps ctx ops s) := by
  induction ops with
  | nil => intro s hs; exact hs
  | cons o rest ih =>
      intro s hs
      exact ih _ (stInv_applyOp ctx o s hs)

theorem stInv_empty : StInv (emptyStore T) := by
  constructor
  · intro p hp
    simp [emptyStore] at hp
  · rw [cacheKeysNodup]
    simp [emptyStore]

theorem isTextKey_eq (k : Id) (h : isTextKey k = true) : ∃ a, k = Id.str a := by
  cases k with
  | str a => exact ⟨a, rfl⟩
  | num n => simp [isTextKey] at h

theorem onePerNormKey_of_stInv (s : EntityStore T) (hs : StInv s) : onePerNormKey s := by
  intro p hp q hq hk
  obtain ⟨a, ha⟩ := isTextKey_eq p.1 (hs.1 p hp)
  obtain ⟨b, hb⟩ := isTextKey_eq q.1 (hs.1 q hq)
  have : p.1 = q.1 := by
    rw [ha, hb]
    rw [ha, hb] at hk
    simpa [getCacheKey] using hk
  exact nodup_keys_mem_eq s.cache hs.2 p q hp hq this

/-! ### Heap hygiene: allocation freshness and valid cache references -/

/-- Heap hygiene carried by every reachable store: allocated subject ids are
below the allocation counter, and every cache entry references an allocated
subject. -/
def HInv (s : EntityStore T) : Prop :=
  (∀ p ∈ s.cells, p.1 < s.nextCell) ∧ (∀ p ∈ s.cache, (mapGet s.cells p.2).isSome)

theorem updAt_keys {β : Type} (m : List (Nat × β)) (k : Nat) (f : β → β)
    (p : Nat × β) (hp : p ∈ updAt m k f) : ∃ q ∈ m, p.1 = q.1 := by
  rcases List.mem_map.mp hp with ⟨q, hq, hpq⟩
  refine ⟨q, hq, ?_⟩
  by_cases h : q.1 = k <;> simp [← hpq, h]

theorem isSome_mapGet_updAt {β : Type} (m : List (Nat × β)) (k j : Nat) (f : β → β) :
    (mapGet (updAt m k f) j).isSome = (mapGet m j).isSome := by
  rw [mapGet_updAt]
  by_cases h : j = k
  · rw [if_pos h]
    cases mapGet m j <;> rfl
  · rw [if_neg h]

theorem hInv_ref (id : Id) (s : EntityStore T) (hs : HInv s) :
    HInv (getEntitySubjectRef id s).2 := by
  rcases hm : mapGet s.cache (Id.str (getCacheKey id)) with _ | cid
  · constructor
    · intro p hp
      rw [ref_miss_cells _ _ hm] at hp
      rw [ref_miss_nextCell _ _ hm]
      rcases List.mem_append.mp hp with h1 | h1
      · exact Nat.lt_succ_of_lt (hs.1 p h1)
      · simp only [List.mem_singleton] at h1
        rw [h1]
        exact Nat.lt_succ_self _
    · intro p hp
      rw [ref_miss_cache _ _ hm] at hp
      rw [ref_miss_cells _ _ hm]
      rcases mem_mapSet _ _ _ p hp with h1 | h1
      · have hfresh : ∀ q ∈ s.cells, q.1 ≠ s.nextCell := fun q hq => Nat.ne_of_lt (hs.1 q hq)
        rw [h1, mapGet_append_fresh s.cells s.nextCell (newCell T) hfresh]
        rfl
      · have h2 := hs.2 p h1
        rcases hx : mapGet s.cells p.2 with _ | c
        · rw [hx] at h2
          simp at h2
        · rw [mapGet_append_left s.cells _ p.2 c hx]
          rfl
  · rw [ref_hit _ _ _ hm]
    exact hs

theorem hInv_of_parts (s s' : EntityStore T)
    (hcells : s'.cells = s.cells) (hcache : s'.cache = s.cache)
    (hnc : s'.nextCell = s.nextCell) (hs : HInv s) : HInv s' := by
  constructor
  · intro p hp
    rw [hnc]
    exact hs.1 p (hcells ▸ hp)
  · intro p hp
    rw [hcells]
    exact hs.2 p (hcache ▸ hp)

theorem hInv_cellNext (s : EntityStore T) (cid : Nat) (v : Option T) (hs : HInv s) :
    HInv (cellNext s cid v) := by
  constructor
  · intro p hp
    obtain ⟨q, hq, hpq⟩ := updAt_keys s.cells cid
      (fun c => { c with value := v, history := c.history ++ [v] }) p (by exact hp)
    rw [show (cellNext s cid v).nextCell = s.nextCell from rfl, hpq]
    exact hs.1 q hq
  · intro p hp
    rw [show (cellNext s cid v).cells
      = updAt s.cells cid (fun c => { c with value := v, history := c.history ++ [v] }) from rfl]
    rw [isSome_mapGet_updAt]
    exact hs.2 p hp

theorem hInv_setSync (ctx : EmbCtx T) (v : T) (ct : Nat) (s : EntityStore T)
    (hs : HInv s) : HInv (setSync ctx v ct s) := by
  cases hb : ((cellValue (getEntitySubjectRef (ctx.idAccessor v) s).2
        (getEntitySubjectRef (ctx.idAccessor v) s).1).isNone
      || decide (cellValue (getEntitySubjectRef (ctx.idAccessor v) s).2
        (getEntitySubjectRef (ctx.idAccessor v) s).1 ≠ some v)) with
  | false =>
      unfold setSync
      simp only [hb]
      exact hInv_ref _ s hs
  | true =>
      unfold setSync
      simp only [hb, if_true]
      have h1 : HInv (setPendingDeletion (ctx.idAccessor v) ct
          (getEntitySubjectRef (ctx.idAccessor v) s).2) :=
        hInv_of_parts _ _ (spd_cells _ _ _) (spd_cache _ _ _) (spd_nextCell _ _ _)
          (hInv_ref _ s hs)
      have h2 := hInv_cellNext _ (getEntitySubjectRef (ctx.idAccessor v) s).1 (some v) h1
      exact hInv_of_parts _ _ rfl rfl rfl h2

theorem deleteSync_nextCell (ctx : EmbCtx T) (i : Id) (s : EntityStore T) :
    (deleteSync ctx (Sum.inr i) s).nextCell = (getEntitySubjectRef i s).2.nextCell := by
  rw [deleteSync_red]
  rw [show (postSignal (cancelPendingDeletion i
      (cacheDelete (cellNext (getEntitySubjectRef i s).2 (getEntitySubjectRef i s).1 none) i))).nextCell
    = (cancelPendingDeletion i
      (cacheDelete (cellNext (getEntitySubjectRef i s).2 (getEntitySubjectRef i s).1 none) i)).nextCell
    from rfl]
  rw [cpd_nextCell]
  rfl

theorem hInv_deleteSync (ctx : EmbCtx T) (inp : T ⊕ Id) (s : EntityStore T)
    (hs : HInv s) : HInv (deleteSync ctx inp s) := by
  have key : ∀ i : Id, HInv (deleteSync ctx (Sum.inr i) s) := by
    intro i
    have hr := hInv_ref i s hs
    have hc := hInv_cellNext (getEntitySubjectRef i s).2 (getEntitySubjectRef i s).1 none hr
    constructor
    · intro p hp
      rw [deleteSync_cells] at hp
      rw [deleteSync_nextCell]
      exact hc.1 p hp
    · intro p hp
      rw [deleteSync_cache] at hp
      rw [deleteSync_cells]
      exact hc.2 p (List.mem_of_mem_filter hp)
  cases inp with
  | inl v => rw [deleteSync_inl]; exact key _
  | inr i => exact key i

theorem hInv_fireTimer (ctx : EmbCtx T) (h : Nat) (s : EntityStore T)
    (hs : HInv s) : HInv (fireTimer ctx h s) := by
  rcases hf : s.timers.find? (fun x => decide (x.1 = h)) with _ | x
  · rw [fireTimer, hf]
    exact hs
  · rw [fireTimer, hf]
    exact hInv_deleteSync ctx (Sum.inr x.2.1) _ (hInv_of_parts _ _ rfl rfl rfl hs)

theorem hInv_runUntil (ctx : EmbCtx T) :
    ∀ (fuel t : Nat) (s : EntityStore T), HInv s → HInv (runUntil ctx fuel t s) := by
  intro fuel
  induction fuel with
  | zero =>
      intro t s hs
      exact hInv_of_parts _ _ rfl rfl rfl hs
  | succ fuel ih =>
      intro t s hs
      rcases hdm : dueMin t s.timers with _ | x
      · rw [runUntil_succ_none ctx fuel t s hdm]
        exact hInv_of_parts _ _ rfl rfl rfl hs
      · rw [runUntil_succ_some ctx fuel t s x hdm]
        exact ih t _ (hInv_fireTimer ctx x.1 s hs)

theorem hInv_applyOp (ctx : EmbCtx T) (o : Op T) (s : EntityStore T)
    (hs : HInv s) : HInv (applyOp ctx s o) := by
  cases o with
  | setOp v ct => exact hInv_setSync ctx v ct s hs
  | delEnt v => exact hInv_deleteSync ctx (Sum.inl v) s hs
  | delKey k => exact hInv_deleteSync ctx (Sum.inr k) s hs
  | getOp k => exact hInv_ref k s hs
  | clearOp =>
      constructor
      · intro p hp
        exact hs.1 p hp
      · intro p hp
        simp [applyOp, clearStore, postSignal] at hp
  | advanceOp d => exact hInv_runUntil ctx _ _ s hs

theorem hInv_runOps (ctx : EmbCtx T) (ops : List (Op T)) :
    ∀ s : EntityStore T, HInv s → HInv (runOps ctx ops s) := by
  induction ops with
  | nil => intro s hs; exact hs
  | cons o rest ih =>
      intro s hs
      exact ih _ (hInv_applyOp ctx o s hs)

theorem hInv_empty : HInv (emptyStore T) := by
  constructor
  · intro p hp
    simp [emptyStore] at hp
  · intro p hp
    simp [emptyStore] at hp

/-- After any `setSync`, the written value's key holds that value. -/
theorem setSync_valueAtKey (ctx : EmbCtx T) (v : T) (ct : Nat) (s : EntityStore T)
    (hs : HInv s) :
    valueAtKey (setSync ctx v ct s) (ctx.idAccessor v) = some v := by
  by_cases h : valueAtKey s (ctx.idAccessor v) = some v
  · rw [setSync_stored_noop ctx s v ct h]
    exact h
  · obtain ⟨cid, h1, h2, _, _⟩ := setSync_spec ctx s v ct hs.1 hs.2 h
    rw [valueAtKey, h1]
    exact h2

/-! ### `getOrSet`: the code follows the spec's race-safe algorithm -/

theorem getOrSetFirst_succ (ctx : EmbCtx T) (fuel : Nat) (id : Id) (prod : Nat → T)
    (sched : Nat → List (Op T)) (ct k : Nat) (s : EntityStore T) :
    getOrSetFirst ctx (fuel + 1) id prod sched ct k s =
      (match cellValue (getEntitySubjectRef id s).2 (getEntitySubjectRef id s).1 with
       | some w =>
           if ctx.truthy w then (some w, (getEntitySubjectRef id s).2)
           else (none, (getEntitySubjectRef id s).2)
       | none =>
           if ctx.truthy (prod k) then
             match cellValue (setSync ctx (prod k) ct (runOps ctx (sched k) (getEntitySubjectRef id s).2))
                 (getEntitySubjectRef id s).1 with
             | some w => (some w, setSync ctx (prod k) ct (runOps ctx (sched k) (getEntitySubjectRef id s).2))
             | none => getOrSetFirst ctx fuel id prod sched ct (k + 1)
                 (setSync ctx (prod k) ct (runOps ctx (sched k) (getEntitySubjectRef id s).2))
           else (none, setSync ctx (prod k) ct (runOps ctx (sched k) (getEntitySubjectRef id s).2))) := by
  rw [getOrSetFirst]

theorem getOrSetSpecAlg_succ (ctx : EmbCtx T) (fuel : Nat) (id : Id) (prod : Nat → T)
    (sched : Nat → List (Op T)) (ct k : Nat) (s : EntityStore T) :
    getOrSetSpecAlg ctx (fuel + 1) id prod sched ct k s =
      (if keyPresent (getEntitySubjectRef id s).2 id then
        match readFirst ctx (getEntitySubjectRef id s).2 id with
        | none => (none, (getEntitySubjectRef id s).2)
        | some _ =>
            match cellValue (getEntitySubjectRef id s).2 (getEntitySubjectRef id s).1 with
            | some w => (some w, (getEntitySubjectRef id s).2)
            | none => getOrSetSpecAlg ctx fuel id prod sched ct (k + 1) (getEntitySubjectRef id s).2
      else
        match setReturnFirst ctx
            (setSync ctx (prod k) ct (runOps ctx (sched k) (getEntitySubjectRef id s).2)) (prod k) with
        | none => (none, setSync ctx (prod k) ct (runOps ctx (sched k) (getEntitySubjectRef id s).2))
        | some _ =>
            match cellValue (setSync ctx (prod k) ct (runOps ctx (sched k) (getEntitySubjectRef id s).2))
                (getEntitySubjectRef id s).1 with
            | some w => (some w, setSync ctx (prod k) ct (runOps ctx (sched k) (getEntitySubjectRef id s).2))
            | none => getOrSetSpecAlg ctx fuel id prod sched ct (k + 1)
                (setSync ctx (prod k) ct (runOps ctx (sched k) (getEntitySubjectRef id s).2))) := by
  rw [getOrSetSpecAlg]

/-- The pipeline of `getOrSet` computes exactly the algorithm the
specification describes, on every hygienic store. -/
theorem getOrSetFirst_eq_specAlg (ctx : EmbCtx T) :
    ∀ (fuel : Nat) (id : Id) (prod : Nat → T) (sched : Nat → List (Op T)) (ct k : Nat)
      (s : EntityStore T), HInv s →
      getOrSetFirst ctx fuel id prod sched ct k s
        = getOrSetSpecAlg ctx fuel id prod sched ct k s := by
  intro fuel
  induction fuel with
  | zero =>
      intro id prod sched ct k s _
      rfl
  | succ fuel ih =>
      intro id prod sched ct k s hs
      rw [getOrSetFirst_succ, getOrSetSpecAlg_succ]
      have hkp : keyPresent (getEntitySubjectRef id s).2 id
          = (cellValue (getEntitySubjectRef id s).2 (getEntitySubjectRef id s).1).isSome := by
        rw [keyPresent, valueAtKey_ref]
      rcases hv : cellValue (getEntitySubjectRef id s).2 (getEntitySubjectRef id s).1 with _ | w
      · -- key absent: both sides run the producer and re-derive
        rw [hv] at hkp
        rw [hkp]
        simp only [Option.isSome_none, Bool.false_eq_true, if_false]
        have hH3 : HInv (setSync ctx (prod k) ct (runOps ctx (sched k) (getEntitySubjectRef id s).2)) :=
          hInv_setSync ctx _ _ _ (hInv_runOps ctx _ _ (hInv_ref id s hs))
        cases ht : ctx.truthy (prod k)
        · have hret : setReturnFirst ctx
              (setSync ctx (prod k) ct (runOps ctx (sched k) (getEntitySubjectRef id s).2)) (prod k)
              = none := by
            rw [setReturnFirst, readFirst,
              setSync_valueAtKey ctx (prod k) ct _ (hInv_runOps ctx _ _ (hInv_ref id s hs))]
            simp [passFilter, ht]
          simp [hret, ht]
        · have hret : setReturnFirst ctx
              (setSync ctx (prod k) ct (runOps ctx (sched k) (getEntitySubjectRef id s).2)) (prod k)
              = some (prod k) := by
            rw [setReturnFirst, readFirst,
              setSync_valueAtKey ctx (prod k) ct _ (hInv_runOps ctx _ _ (hInv_ref id s hs))]
            simp [passFilter, ht]
          simp only [hret, ht, if_true]
          rcases hv3 : cellValue (setSync ctx (prod k) ct (runOps ctx (sched k) (getEntitySubjectRef id s).2))
              (getEntitySubjectRef id s).1 with _ | w3
          · exact ih id prod sched ct (k + 1) _ hH3
          · rfl
      · -- key present: both sides read the captured cell
        rw [hv] at hkp
        rw [hkp]
        simp only [Option.isSome_some, if_true]
        cases ht : ctx.truthy w
        · have hrf : readFirst ctx (getEntitySubjectRef id s).2 id = none := by
            rw [readFirst, valueAtKey_ref, hv]
            simp [passFilter, ht]
          simp [hrf, ht]
        · have hrf : readFirst ctx (getEntitySubjectRef id s).2 id = some w := by
            rw [readFirst, valueAtKey_ref, hv]
            simp [passFilter, ht]
          simp [hrf, ht]

/-! ### Snapshot and emission lemmas for the claims -/

theorem passFilter_mem (ctx : EmbCtx T) (o : Option T) (u : T)
    (h : passFilter ctx o = some u) : ctx.truthy u = true := by
  cases o with
  | none => simp [passFilter] at h
  | some w =>
      by_cases ht : ctx.truthy w
      · rw [passFilter] at h
        rw [if_pos ht] at h
        rw [← Option.some.inj h]
        exact ht
      · rw [passFilter] at h
        rw [if_neg ht] at h
        simp at h

theorem not_mem_getNewEmissions (ctx : EmbCtx T) (v : T) (hf : ctx.truthy v = false)
    (s1 s2 : EntityStore T) (cid : Nat) : v ∉ getNewEmissions ctx s1 s2 cid := by
  intro hv
  rcases List.mem_filterMap.mp hv with ⟨o, _, ho⟩
  rw [passFilter_mem ctx o v ho] at hf
  simp at hf

theorem mapGet_isSome_of_mem_keys {κ α : Type} [DecidableEq κ] (m : List (κ × α)) (k : κ)
    (h : k ∈ m.map Prod.fst) : (mapGet m k).isSome := by
  induction m with
  | nil => simp at h
  | cons p rest ih =>
      rw [mapGet_cons]
      by_cases hp : p.1 = k
      · rw [if_pos hp]
        rfl
      · rw [if_neg hp]
        rcases List.mem_map.mp h with ⟨q, hq, hqk⟩
        rcases List.mem_cons.mp hq with h1 | h1
        · exact absurd (h1 ▸ hqk) hp
        · exact ih (List.mem_map.mpr ⟨q, h1, hqk⟩)

theorem mem_snapshotKeys_of (s : EntityStore T) (a : String) (cid : Nat) (v : T)
    (h1 : mapGet s.cache (Id.str a) = some cid) (h2 : cellValue s cid = some v) :
    Id.str a ∈ snapshotKeys s := by
  refine List.mem_filter.mpr ⟨?_, ?_⟩
  · exact List.mem_map.mpr ⟨(Id.str a, cid), mapGet_mem _ _ _ h1, rfl⟩
  · have : valueAtKey s (Id.str a) = some v := by
      rw [valueAtKey, show Id.str (getCacheKey (Id.str a)) = Id.str a from rfl, h1]
      exact h2
    rw [this]
    rfl

/-- Pointwise description of a `combineLatest` over keys every one of which
holds a truthy value: each source's first emission is the key's value. -/
theorem seg_regs_eq (ctx : EmbCtx T) (s : EntityStore T) :
    ∀ l : List Id,
      (∀ k ∈ l, ∃ cid v, mapGet s.cache (Id.str (getCacheKey k)) = some cid ∧
        cellValue s cid = some v ∧ ctx.truthy v = true) →
      (l.filterMap (fun k => (mapGet s.cache (Id.str (getCacheKey k))).map (fun c => (k, c)))).map
          (fun c => passFilter ctx (cellValue s c.2))
        = l.map (fun k => valueAtKey s k) := by
  intro l
  induction l with
  | nil => intro _; rfl
  | cons k rest ih =>
      intro hf
      obtain ⟨cid, v, h1, h2, h3⟩ := hf k (List.mem_cons_self k rest)
      have hrest := fun q hq => hf q (List.mem_cons_of_mem k hq)
      simp only [List.filterMap_cons, h1, Option.map_some', List.map_cons, List.cons.injEq]
      constructor
      · rw [show passFilter ctx (cellValue s cid) = some v from by rw [h2]; simp [passFilter, h3]]
        rw [valueAtKey, h1]
        exact h2.symm
      · exact ih hrest

/-- Every present value of the store passes the read filter (JS object
entities always do; falsy primitives do not). -/
def presentTruthy (ctx : EmbCtx T) (s : EntityStore T) : Prop :=
  ∀ k ∈ snapshotKeys s, (valueAtKey s k).all ctx.truthy = true

theorem startSegment_of_empty (ctx : EmbCtx T) (s : EntityStore T)
    (hks : snapshotKeys s = []) : startSegment ctx s = (none, [[]]) := by
  unfold startSegment
  simp [hks]

theorem snapshot_fact (ctx : EmbCtx T) (s : EntityStore T) (htr : presentTruthy ctx s) :
    ∀ k ∈ snapshotKeys s, ∃ cid v, mapGet s.cache (Id.str (getCacheKey k)) = some cid ∧
      cellValue s cid = some v ∧ ctx.truthy v = true := by
  intro k hk
  have h2 := (List.mem_filter.mp hk).2
  rcases hv : valueAtKey s k with _ | v
  · rw [hv] at h2
    simp at h2
  · have hall := htr k hk
    rw [hv] at hall
    have htv : ctx.truthy v = true := by simpa [Option.all] using hall
    rw [valueAtKey] at hv
    rcases hm : mapGet s.cache (Id.str (getCacheKey k)) with _ | cid
    · rw [hm] at hv
      simp at hv
    · rw [hm] at hv
      exact ⟨cid, v, rfl, hv, htv⟩

/-- A fresh subscription to `getAll` with no following operation: exactly
one snapshot, emitted at subscription, provided every present value passes
the read filter. -/
theorem getAllRun_no_ops (ctx : EmbCtx T) (w : Nat) (s : EntityStore T)
    (htr : presentTruthy ctx s) :
    getAllRun ctx w s [] = [snapshotValues s] := by
  have hred : getAllRun ctx w s []
      = (startSegment ctx s).2 ++ walkEvents ctx
          (mergeEvents [] (debounceTimes w ((runTimedOps ctx [] s).signals.drop s.signals.length)))
          s (startSegment ctx s).1 := rfl
  rw [hred]
  have hsig : (runTimedOps ctx [] s).signals.drop s.signals.length = [] := by
    rw [show runTimedOps ctx [] s = s from rfl]
    exact List.drop_length s.signals
  rw [hsig]
  rw [show debounceTimes w [] = [] from rfl]
  rw [show mergeEvents ([] : List (Nat × Op T)) [] = [] from rfl]
  rw [show walkEvents ctx [] s (startSegment ctx s).1 = [] from rfl]
  rw [List.append_nil]
  rcases hks : snapshotKeys s with _ | ⟨k0, rest⟩
  · rw [startSegment_of_empty ctx s hks]
    rw [snapshotValues, hks]
    rfl
  · have hfact := snapshot_fact ctx s htr
    have hne : (snapshotKeys s).isEmpty = false := by
      rw [hks]
      rfl
    have hregs := seg_regs_eq ctx s (snapshotKeys s) hfact
    have hall : ((snapshotKeys s).map (fun k => valueAtKey s k)).all Option.isSome = true := by
      simp only [List.all_eq_true]
      intro x hx
      rcases List.mem_map.mp hx with ⟨k, hk, hxk⟩
      obtain ⟨cid, v, h1, h2, _⟩ := hfact k hk
      rw [← hxk]
      rw [show valueAtKey s k = some v from by rw [valueAtKey, h1]; exact h2]
      rfl
    unfold startSegment
    simp only [hne, Bool.false_eq_true, if_false, hregs, hall, if_true]
    rw [show List.filterMap id ((snapshotKeys s).map fun k => valueAtKey s k)
      = (snapshotKeys s).filterMap (valueAtKey s) from by rw [List.filterMap_map]; rfl]
    rfl

/-! ### Trailing debounce coalesces a burst into one recomputation -/

theorem debounce_burst (w : Nat) :
    ∀ (us : List Nat) (hne : us ≠ []), us.Chain' (fun a b => b < a + w) →
      debounceTimes w us = [us.getLast hne + w] := by
  intro us
  induction us with
  | nil => intro hne; exact absurd rfl hne
  | cons u rest ih =>
      intro hne hch
      cases rest with
      | nil => rfl
      | cons u2 rest2 =>
          have h1 : u2 < u + w := (List.chain'_cons.mp hch).1
          have h2 := (List.chain'_cons.mp hch).2
          rw [show debounceTimes w (u :: u2 :: rest2)
            = if u2 < u + w then debounceTimes w (u2 :: rest2)
              else (u + w) :: debounceTimes w (u2 :: rest2) from rfl]
          rw [if_pos h1]
          rw [ih (by simp) h2]
          conv_rhs => rw [List.getLast_cons (by simp : u2 :: rest2 ≠ [])]

/-! ### Concrete instantiation for scenario theorems

Entities are JS numbers: reference identity on primitives is value
equality, the key of a number is the number itself, and `0` is the one
falsy number.  `ctxStrK` keys every entity under the fixed text key `"k"`. -/

/-- Number entities keyed by themselves. -/
def ctxInt : EmbCtx Int :=
  { idAccessor := fun v => Id.num v, truthy := fun v => decide (v ≠ 0) }

/-- Number entities all keyed under the text key `"k"`. -/
def ctxStrK : EmbCtx Int :=
  { idAccessor := fun _ => Id.str "k", truthy := fun v => decide (v ≠ 0) }

/-- Ten `set` calls for ten distinct keys, fired at one-millisecond
intervals — all inside one 200 ms debounce window. -/
def tenSetOps : List (Nat × Op Int) :=
  (List.range 10).map (fun i => (i + 1, Op.setOp ((i : Int) + 1) 600000))

/-! ### The claims -/

/-- C1: `getOrSet(key, producer, cacheTime)` follows the race-safe
algorithm: it captures the Cell, starts from the existing read stream if the
key is currently present and otherwise from `set(producer(), cacheTime)`,
takes only the first emission of that starting stream, then re-derives the
value directly from the Cell; if the Cell is present it emits that value,
and if the Cell is now absent (concurrently deleted) it recursively
re-invokes the whole procedure for the same key/producer/cacheTime and takes
its first result.  First conjunct: the embedded pipeline equals the
spec-worded algorithm on every hygienic store, for every key, producer,
interference schedule, cache time and retry depth.  Second conjunct: in the
concrete race where the entry is deleted while the producer resolves, the
caller still receives the produced value through the retry. -/
theorem C1_getOrSet_race_safe_algorithm :
    (∀ (T : Type) (inst : DecidableEq T) (ctx : EmbCtx T) (fuel : Nat) (id : Id)
        (prod : Nat → T) (sched : Nat → List (Op T)) (ct k : Nat) (s : EntityStore T),
        HInv s →
        getOrSetFirst ctx fuel id prod sched ct k s
          = getOrSetSpecAlg ctx fuel id prod sched ct k s) ∧
    (getOrSetFirst ctxStrK 2 (Id.str "k") (fun _ => 7)
        (fun n => if n = 0 then [Op.delKey (Id.str "k")] else []) 100 0 (emptyStore Int)).1
      = some 7 := by
  constructor
  · intro T inst ctx fuel id prod sched ct k s hs
    exact getOrSetFirst_eq_specAlg ctx fuel id prod sched ct k s hs
  · decide

/-- C1 witness: the refinement applied at a concrete store and producer,
with the hygiene hypothesis discharged. -/
theorem C1_getOrSet_race_safe_algorithm_witness :
    getOrSetFirst ctxInt 1 (Id.num 3) (fun _ => 3) (fun _ => []) 50 0 (emptyStore Int)
      = getOrSetSpecAlg ctxInt 1 (Id.num 3) (fun _ => 3) (fun _ => []) 50 0 (emptyStore Int) :=
  C1_getOrSet_race_safe_algorithm.1 Int inferInstance ctxInt 1 (Id.num 3)
    (fun _ => 3) (fun _ => []) 50 0 (emptyStore Int) hInv_empty

/-- C2: when a key's scheduled eviction timer expires, the key is evicted
unconditionally: running the event loop to the timer's deadline leaves the
key absent, the timer callback being `deleteSync(id)` with no consultation
of the subject's observer count — the same conclusion holds after the
observer count of any subject is overwritten arbitrarily.  The hypotheses
are the bookkeeping invariants every reachable store satisfies. -/
theorem C2_timer_expiry_unconditional_eviction {T : Type} [DecidableEq T]
    (ctx : EmbCtx T) (s : EntityStore T) (h : Nat) (i : Id) (d : Nat) (cid n : Nat)
    (hpd : pdConsistent s) (hnd : timerHandlesNodup s)
    (htm : (h, i, d) ∈ s.timers) :
    valueAtKey (runUntilT ctx d s) (Id.str (getCacheKey i)) = none ∧
    valueAtKey (runUntilT ctx d (setObservers s cid n)) (Id.str (getCacheKey i)) = none := by
  constructor
  · exact runUntil_evicts ctx i s.timers.length d s (Nat.le_refl _) hpd hnd
      (Or.inr ⟨h, d, htm, Nat.le_refl d⟩)
  · exact runUntil_evicts ctx i (setObservers s cid n).timers.length d (setObservers s cid n)
      (Nat.le_refl _) hpd hnd (Or.inr ⟨h, d, htm, Nat.le_refl d⟩)

/-- C2 witness: `set(5, cacheTime := 100)` arms timer 0 for key `5`; at its
deadline the key is absent, also with 42 observers attached to its subject. -/
theorem C2_timer_expiry_unconditional_eviction_witness :
    (0, Id.num 5, 100) ∈ (setSync ctxInt 5 100 (emptyStore Int)).timers ∧
    valueAtKey (runUntilT ctxInt 100 (setSync ctxInt 5 100 (emptyStore Int)))
      (Id.str (getCacheKey (Id.num 5))) = none ∧
    valueAtKey (runUntilT ctxInt 100 (setObservers (setSync ctxInt 5 100 (emptyStore Int)) 0 42))
      (Id.str (getCacheKey (Id.num 5))) = none := by
  refine ⟨by decide, ?_⟩
  exact C2_timer_expiry_unconditional_eviction ctxInt (setSync ctxInt 5 100 (emptyStore Int))
    0 (Id.num 5) 100 0 42 (by unfold pdConsistent; decide)
    (by unfold timerHandlesNodup; decide) (by decide)

/-- C8: at most one Cell per normalized key.  First conjunct: after any
interleaving of store operations from a fresh store, two cache entries whose
keys normalize to the same text are the same entry.  Second conjunct: in any
state, looking the subject up under the integer key `n` and under the text
key `toString n` (in either order) returns the same Cell reference — `get`,
`set` and `getOrSet` all resolve their Cell through this lookup. -/
theorem C8_one_cell_per_normalized_key :
    (∀ (T : Type) (inst : DecidableEq T) (ctx : EmbCtx T) (ops : List (Op T)),
        onePerNormKey (runOps ctx ops (emptyStore T))) ∧
    (∀ (T : Type) (inst : DecidableEq T) (s : EntityStore T) (n : Int),
        (getEntitySubjectRef (Id.str (toString n)) (getEntitySubjectRef (Id.num n) s).2).1
          = (getEntitySubjectRef (Id.num n) s).1 ∧
        (getEntitySubjectRef (Id.num n) (getEntitySubjectRef (Id.str (toString n)) s).2).1
          = (getEntitySubjectRef (Id.str (toString n)) s).1) := by
  constructor
  · intro T inst ctx ops
    exact onePerNormKey_of_stInv _ (stInv_runOps ctx ops _ stInv_empty)
  · intro T inst s n
    constructor
    · have h := ref_cache_lookup (Id.num n) s
      exact congrArg Prod.fst (ref_hit (Id.str (toString n)) _ _ h)
    · have h := ref_cache_lookup (Id.str (toString n)) s
      exact congrArg Prod.fst (ref_hit (Id.num n) _ _ h)

/-- C3 counterexample: the claim promises exactly one emission to existing
subscribers for every value; for the falsy value `0` (a legal store element,
`EntityStore<number>`) an existing subscriber of `get` receives ZERO
emissions across the two `set` calls, because `get`'s filter
`isDefined = (value) => !!value` tests truthiness — even though the Cell
does end up holding `0`. -/
theorem C3_falsy_value_zero_emissions :
    getNewEmissions ctxInt
        (getEntitySubjectRef (Id.num 0) (emptyStore Int)).2
        (setSync ctxInt 0 100 (setSync ctxInt 0 100
          (getEntitySubjectRef (Id.num 0) (emptyStore Int)).2)) 0
      = [] ∧
    cellValue (setSync ctxInt 0 100 (setSync ctxInt 0 100
        (getEntitySubjectRef (Id.num 0) (emptyStore Int)).2)) 0 = some 0 := by
  constructor
  · decide
  · decide

/-- C3 (amended): for EVERY value `v`, the second of two `set` calls with
the same value reference — whose value is then identical by reference to the
currently stored one — is a complete no-op on the store state, so it emits
no new value to subscribers and posts no store-wide change notification
(first conjunct, no truthiness assumed); and when `v` passes the read
filter (truthy) and differs from what was stored before, the two calls
together yield exactly one emission to existing subscribers of `get` for
that key, not two (second conjunct). -/
theorem C3_identity_change_suppression {T : Type} [DecidableEq T] (ctx : EmbCtx T)
    (s : EntityStore T) (v : T) (ct : Nat) (hH : HInv s) :
    setSync ctx v ct (setSync ctx v ct s) = setSync ctx v ct s ∧
    (ctx.truthy v = true → valueAtKey s (ctx.idAccessor v) ≠ some v →
      ∀ cid, mapGet (setSync ctx v ct s).cache (Id.str (getCacheKey (ctx.idAccessor v))) = some cid →
        getNewEmissions ctx s (setSync ctx v ct (setSync ctx v ct s)) cid = [v]) := by
  have hst := setSync_valueAtKey ctx v ct s hH
  have hnoop := setSync_stored_noop ctx (setSync ctx v ct s) v ct hst
  refine ⟨hnoop, ?_⟩
  intro htr hnew cid hcid
  rw [hnoop]
  obtain ⟨cid2, h1, h2, h3, h4⟩ := setSync_spec ctx s v ct hH.1 hH.2 hnew
  have hc : cid2 = cid := by
    rw [hcid] at h1
    exact (Option.some.inj h1).symm
  rw [← hc]
  rw [getNewEmissions, newEmissions, h3, List.drop_left]
  simp [passFilter, htr]

/-- C3 witness: the no-op applied both to the truthy value `5` and to the
falsy value `0`, and the single emission `[5]` for the truthy double-set,
on a fresh store. -/
theorem C3_identity_change_suppression_witness :
    setSync ctxInt 5 100 (setSync ctxInt 5 100 (emptyStore Int))
        = setSync ctxInt 5 100 (emptyStore Int) ∧
    setSync ctxInt 0 100 (setSync ctxInt 0 100 (emptyStore Int))
        = setSync ctxInt 0 100 (emptyStore Int) ∧
    getNewEmissions ctxInt (emptyStore Int)
        (setSync ctxInt 5 100 (setSync ctxInt 5 100 (emptyStore Int))) 0 = [5] := by
  have h5 := C3_identity_change_suppression ctxInt (emptyStore Int) 5 100
    (by unfold HInv; exact ⟨by decide, by decide⟩)
  have h0 := C3_identity_change_suppression ctxInt (emptyStore Int) 0 100
    (by unfold HInv; exact ⟨by decide, by decide⟩)
  exact ⟨h5.1, h0.1, h5.2 (by decide) (by decide) 0 (by decide)⟩

/-- C5 counterexample: the claim promises that after `set` completes, any
new subscriber to `get` immediately receives the value; for the falsy value
`0` the Cell holds `0` but the replay is filtered out and the new subscriber
receives nothing. -/
theorem C5_falsy_replay_suppressed :
    cellValue (setSync ctxInt 0 100 (emptyStore Int)) 0 = some 0 ∧
    replayEmission ctxInt (setSync ctxInt 0 100 (emptyStore Int)) 0 = [] := by
  constructor
  · decide
  · decide

/-- C5 (amended): for every key and truthy value `v`, after `set` completes
the key's Cell holds `v`, and a new subscriber to `get` for that key
immediately receives `v` without any further write (the `BehaviorSubject`
replays its current value through the read filter). -/
theorem C5_replay_on_late_subscribe {T : Type} [DecidableEq T] (ctx : EmbCtx T)
    (s : EntityStore T) (v : T) (ct : Nat)
    (hH : HInv s) (htr : ctx.truthy v = true) :
    ∃ cid, mapGet (setSync ctx v ct s).cache (Id.str (getCacheKey (ctx.idAccessor v))) = some cid ∧
      cellValue (setSync ctx v ct s) cid = some v ∧
      replayEmission ctx (setSync ctx v ct s) cid = [v] := by
  by_cases h : valueAtKey s (ctx.idAccessor v) = some v
  · rw [setSync_stored_noop ctx s v ct h]
    rcases hm : mapGet s.cache (Id.str (getCacheKey (ctx.idAccessor v))) with _ | cid
    · rw [valueAtKey, hm] at h
      simp at h
    · rw [valueAtKey, hm] at h
      have h2 : cellValue s cid = some v := h
      refine ⟨cid, rfl, h2, ?_⟩
      rw [replayEmission, h2]
      simp [passFilter, htr]
  · obtain ⟨cid, h1, h2, _, _⟩ := setSync_spec ctx s v ct hH.1 hH.2 h
    refine ⟨cid, h1, h2, ?_⟩
    rw [replayEmission, h2]
    simp [passFilter, htr]

/-- C5 witness: replay of `7` to a late subscriber on a fresh store. -/
theorem C5_replay_on_late_subscribe_witness :
    ∃ cid, mapGet (setSync ctxInt 7 100 (emptyStore Int)).cache
        (Id.str (getCacheKey (ctxInt.idAccessor 7))) = some cid ∧
      cellValue (setSync ctxInt 7 100 (emptyStore Int)) cid = some 7 ∧
      replayEmission ctxInt (setSync ctxInt 7 100 (emptyStore Int)) cid = [7] :=
  C5_replay_on_late_subscribe ctxInt (emptyStore Int) 7 100
    (by unfold HInv; exact ⟨by decide, by decide⟩) (by decide)

/-- C9: the filter `get` applies (`notUndefined = filter(isDefined)` with
`isDefined = (value) => !!value`) tests JS truthiness, not definedness: a
stored falsy value is never emitted to `get` subscribers — neither as a
replay to a new subscriber nor as a pushed change to an existing one — even
though the key's Cell holds it and the key counts as present for `getAll`'s
snapshot computation, whose filter tests `getValue() !== undefined`. -/
theorem C9_truthiness_read_filter {T : Type} [DecidableEq T] (ctx : EmbCtx T)
    (v : T) (hf : ctx.truthy v = false) :
    (∀ (s1 s2 : EntityStore T) (cid : Nat), v ∉ getNewEmissions ctx s1 s2 cid) ∧
    (∀ (s : EntityStore T) (cid : Nat), cellValue s cid = some v →
      replayEmission ctx s cid = []) ∧
    (∀ (s : EntityStore T) (ct : Nat), HInv s →
      ∃ cid, mapGet (setSync ctx v ct s).cache (Id.str (getCacheKey (ctx.idAccessor v))) = some cid ∧
        cellValue (setSync ctx v ct s) cid = some v ∧
        Id.str (getCacheKey (ctx.idAccessor v)) ∈ snapshotKeys (setSync ctx v ct s)) := by
  refine ⟨fun s1 s2 cid => not_mem_getNewEmissions ctx v hf s1 s2 cid, ?_, ?_⟩
  · intro s cid hcv
    rw [replayEmission, hcv]
    simp [passFilter, hf]
  · intro s ct hH
    by_cases h : valueAtKey s (ctx.idAccessor v) = some v
    · rw [setSync_stored_noop ctx s v ct h]
      rcases hm : mapGet s.cache (Id.str (getCacheKey (ctx.idAccessor v))) with _ | cid
      · rw [valueAtKey, hm] at h
        simp at h
      · rw [valueAtKey, hm] at h
        exact ⟨cid, rfl, h, mem_snapshotKeys_of s _ cid v hm h⟩
    · obtain ⟨cid, h1, h2, _, _⟩ := setSync_spec ctx s v ct hH.1 hH.2 h
      exact ⟨cid, h1, h2, mem_snapshotKeys_of _ _ cid v h1 h2⟩

/-- C9 witness: the falsy number `0` — its key is present for `getAll` while
`get` never emits it. -/
theorem C9_truthiness_read_filter_witness :
    ((0 : Int) ∉ getNewEmissions ctxInt (emptyStore Int) (emptyStore Int) 0) ∧
    ∃ cid, mapGet (setSync ctxInt 0 100 (emptyStore Int)).cache
        (Id.str (getCacheKey (ctxInt.idAccessor 0))) = some cid ∧
      cellValue (setSync ctxInt 0 100 (emptyStore Int)) cid = some 0 ∧
      Id.str (getCacheKey (ctxInt.idAccessor 0))
        ∈ snapshotKeys (setSync ctxInt 0 100 (emptyStore Int)) := by
  have h := C9_truthiness_read_filter ctxInt (0 : Int) (by decide)
  exact ⟨h.1 (emptyStore Int) (emptyStore Int) 0,
    h.2.2 (emptyStore Int) 100 (by unfold HInv; exact ⟨by decide, by decide⟩)⟩

/-- C4: evaluation at the failing input.  After storing the entity `1`
(integer id, normalized cache key `"1"`) and then deleting by the integer
key `1`: the Cell is set to absent, the pending deletion entry is cleared,
a change signal is posted — but `this.cache.delete(id)` uses the RAW
integer key while the map entry is stored under the string `"1"`, so the
Cell is NOT removed from the map.  Symmetrically, deleting by the text key
`"1"` after the numeric-id `set` removes the map entry but misses the raw
numeric handle in `pendingDeletions`, so the eviction timer keeps running. -/
theorem C4_delete_raw_key_misses_normalized_entry :
    mapGet (deleteSync ctxInt (Sum.inr (Id.num 1))
        (setSync ctxInt 1 600000 (emptyStore Int))).cache (Id.str "1") = some 0 ∧
    cellValue (deleteSync ctxInt (Sum.inr (Id.num 1))
        (setSync ctxInt 1 600000 (emptyStore Int))) 0 = none ∧
    (deleteSync ctxInt (Sum.inr (Id.num 1))
        (setSync ctxInt 1 600000 (emptyStore Int))).signals.length = 2 ∧
    (deleteSync ctxInt (Sum.inr (Id.num 1))
        (setSync ctxInt 1 600000 (emptyStore Int))).timers = [] ∧
    mapGet (deleteSync ctxInt (Sum.inr (Id.str "1"))
        (setSync ctxInt 1 600000 (emptyStore Int))).cache (Id.str "1") = none ∧
    (deleteSync ctxInt (Sum.inr (Id.str "1"))
        (setSync ctxInt 1 600000 (emptyStore Int))).timers = [(0, Id.num 1, 600000)] := by
  refine ⟨?_, ?_, ?_, ?_, ?_, ?_⟩ <;> decide

/-- C10 counterexample: deleting a never-written INTEGER key creates the
fresh absent Cell but does not remove it from the map — `Map.delete(1)`
misses the entry stored under `"1"` — contradicting the claim that the
fresh Cell is removed for every key. -/
theorem C10_integer_key_cell_not_removed :
    mapGet (deleteSync ctxInt (Sum.inr (Id.num 1)) (emptyStore Int)).cache (Id.str "1")
        = some 0 ∧
    (deleteSync ctxInt (Sum.inr (Id.num 1)) (emptyStore Int)).signals = [0] := by
  constructor
  · decide
  · decide

/-- C10 (amended): for every key that has never been written, `delete(key)`
never fails (it is a total state transformation), still posts exactly one
ChangeBus signal even though no presence or value changed, and first creates
a fresh absent Cell via the lookup-or-create path; the subsequent
`Map.delete` with the raw key then removes that Cell only when the key is
text (equal to its normalized form) — for an integer key the fresh absent
Cell remains in the map. -/
theorem C10_delete_unwritten_key {T : Type} [DecidableEq T] (ctx : EmbCtx T)
    (s : EntityStore T) (k : Id)
    (hfresh : mapGet s.cache (Id.str (getCacheKey k)) = none) :
    (deleteSync ctx (Sum.inr k) s).signals = s.signals ++ [s.now] ∧
    (deleteSync ctx (Sum.inr k) s).nextCell = s.nextCell + 1 ∧
    (∀ a, k = Id.str a →
      mapGet (deleteSync ctx (Sum.inr k) s).cache (Id.str (getCacheKey k)) = none) ∧
    (∀ n, k = Id.num n →
      mapGet (deleteSync ctx (Sum.inr k) s).cache (Id.str (getCacheKey k)) = some s.nextCell ∧
      cellValue (deleteSync ctx (Sum.inr k) s) s.nextCell = none) := by
  refine ⟨deleteSync_signals ctx k s, ?_, ?_, ?_⟩
  · rw [deleteSync_nextCell, ref_miss_nextCell _ _ hfresh]
  · intro a hk
    subst hk
    rw [deleteSync_cache]
    rw [show Id.str (getCacheKey (Id.str a)) = Id.str a from rfl]
    exact mapGet_mapDelete_self _ _
  · intro n hk
    subst hk
    have hne : Id.str (getCacheKey (Id.num n)) ≠ Id.num n := by
      intro hc
      exact Id.noConfusion hc
    constructor
    · rw [deleteSync_cache, mapGet_mapDelete_ne _ _ _ hne, ref_cache_lookup,
        ref_miss_fst _ _ hfresh]
    · have hfst := ref_miss_fst (Id.num n) s hfresh
      rw [show cellValue (deleteSync ctx (Sum.inr (Id.num n)) s) s.nextCell
        = cellValue (cellNext (getEntitySubjectRef (Id.num n) s).2
            (getEntitySubjectRef (Id.num n) s).1 none) s.nextCell from by
          rw [cellValue, deleteSync_cells, cellValue]]
      rw [← hfst]
      exact cellValue_cellNext_none _ _

/-- C10 witness: deleting the never-written integer key `2`. -/
theorem C10_delete_unwritten_key_witness :
    (deleteSync ctxInt (Sum.inr (Id.num 2)) (emptyStore Int)).signals
        = (emptyStore Int).signals ++ [(emptyStore Int).now] ∧
    (deleteSync ctxInt (Sum.inr (Id.num 2)) (emptyStore Int)).nextCell
        = (emptyStore Int).nextCell + 1 ∧
    mapGet (deleteSync ctxInt (Sum.inr (Id.num 2)) (emptyStore Int)).cache
        (Id.str (getCacheKey (Id.num 2))) = some (emptyStore Int).nextCell ∧
    cellValue (deleteSync ctxInt (Sum.inr (Id.num 2)) (emptyStore Int))
        (emptyStore Int).nextCell = none := by
  have h := C10_delete_unwritten_key ctxInt (emptyStore Int) (Id.num 2) (by decide)
  exact ⟨h.1, h.2.1, (h.2.2.2 2 rfl).1, (h.2.2.2 2 rfl).2⟩

/-- C7 counterexample: the claim promises that every new `getAll`
subscription immediately emits the current snapshot; on a store whose one
present key holds the falsy value `0`, the snapshot keys are computed but
nothing is ever emitted — the `combineLatest` source `get("0")` never
emits through the truthiness filter. -/
theorem C7_falsy_blocks_initial_emission :
    getAllRun ctxInt 200 (setSync ctxInt 0 100 (emptyStore Int)) [] = [] ∧
    snapshotKeys (setSync ctxInt 0 100 (emptyStore Int)) = [Id.str "0"] := by
  constructor
  · decide
  · decide

/-- C7 (amended): a new subscription to `getAll()` immediately computes the
current snapshot synchronously from the store's present keys, without
waiting for a ChangeBus signal or for the debounce window, and — provided
every present value passes the read filter (truthy) — emits it as the first
and only emission of the quiescent scenario; on a store with no present
keys this first emission is the empty snapshot. -/
theorem C7_immediate_initial_snapshot {T : Type} [DecidableEq T] (ctx : EmbCtx T)
    (w : Nat) (s : EntityStore T) (htr : presentTruthy ctx s) :
    getAllRun ctx w s [] = [snapshotValues s] ∧
    (snapshotKeys s = [] → getAllRun ctx w s [] = [[]]) := by
  refine ⟨getAllRun_no_ops ctx w s htr, ?_⟩
  intro hks
  rw [getAllRun_no_ops ctx w s htr, snapshotValues, hks]
  rfl

/-- C7 witness: one truthy entity, and the empty store. -/
theorem C7_immediate_initial_snapshot_witness :
    getAllRun ctxInt 200 (setSync ctxInt 7 100 (emptyStore Int)) []
        = [snapshotValues (setSync ctxInt 7 100 (emptyStore Int))] ∧
    getAllRun ctxInt 200 (emptyStore Int) [] = [[]] := by
  constructor
  · exact (C7_immediate_initial_snapshot ctxInt 200 (setSync ctxInt 7 100 (emptyStore Int))
      (by unfold presentTruthy; decide)).1
  · exact (C7_immediate_initial_snapshot ctxInt 200 (emptyStore Int)
      (by unfold presentTruthy; decide)).2 (by decide)

/-- C6 counterexample: the claim promises exactly one recomputed snapshot
per burst; for a burst consisting of one `set` of the falsy value `0`, the
debounced recomputation fires at 201 but the `getAll` subscriber receives
no recomputed snapshot at all — only the initial empty one — because the
present value is filtered out of the `combineLatest`. -/
theorem C6_falsy_blocks_recomputed_snapshot :
    getAllRun ctxInt 200 (emptyStore Int) [(1, Op.setOp 0 600000)] = [[]] ∧
    (runTimedOps ctxInt [(1, Op.setOp 0 600000)] (emptyStore Int)).signals = [1] ∧
    debounceTimes 200 [1] = [201] := by
  refine ⟨?_, ?_, ?_⟩ <;> decide

/-- C6 (amended): ChangeBus signals forming a burst (each arriving within
the quiescence window of its predecessor) produce exactly one debounced
recomputation, timed from the last signal of the burst; and ten `set` calls
for ten distinct keys with truthy values fired within one 200 ms window
produce exactly one `getAll` emission containing all ten entities — not
ten — after the initial empty snapshot of the fresh store. -/
theorem C6_debounced_single_recomputation (w : Nat) (us : List Nat) (hne : us ≠ [])
    (hch : us.Chain' (fun a b => b < a + w)) :
    debounceTimes w us = [us.getLast hne + w] ∧
    getAllRun ctxInt HUMAN_REACTION_TIME (emptyStore Int) tenSetOps
      = [[], [1, 2, 3, 4, 5, 6, 7, 8, 9, 10]] := by
  refine ⟨debounce_burst w us hne hch, ?_⟩
  decide

/-- C6 witness: a two-signal burst at 0 and 100 ms coalesces into one
recomputation at 300 ms. -/
theorem C6_debounced_single_recomputation_witness :
    debounceTimes 200 [0, 100] = [300] ∧
    getAllRun ctxInt HUMAN_REACTION_TIME (emptyStore Int) tenSetOps
      = [[], [1, 2, 3, 4, 5, 6, 7, 8, 9, 10]] := by
  have h := C6_debounced_single_recomputation 200 [0, 100] (by decide)
    (by simp [List.chain'_cons])
  constructor
  · rw [h.1]
    decide
  · exact h.2

end EntityStoreModel
